import Mathlib

/-!
Shallow embedding of the cursor-localization experiments
(src/experiments/cursor/sample.py, src/experiments/cursor/grid.py) and of the
CRUD / locking layer (src/openadapt/db/crud.py) of the repository, together
with proofs about the embedded definitions.

Modelling conventions:
- Python floats are modelled as rationals (ℚ); all spread values occurring in
  the search loop are dyadic (powers of 1/2 times integers), so the float
  arithmetic of the source is exact and the ℚ model is faithful for them.
  Overlap ratios returned by the rendering step depend on font metrics and are
  treated as oracle inputs.
- The external vision model (DRIVER.prompt followed by parse_code_snippet) is
  an oracle: each inner pass of sample.py's main loop is given the parsed
  value of result['closest'] as an 'Option ℤ' ('none' models closest is None).
- 'random.random()' values are oracle streams 'ℕ → ℚ'.
- Python 'int()' truncates toward zero; 'ratTrunc' below is that function on ℚ
  (for q < 0, truncation toward zero is -⌊-q⌋, the ceiling).
- Python list indexing with a possibly negative index (cursors[closest - 1] in
  sample.py) is modelled by 'pyGet', including negative-index wraparound.
-/

/-! ## Model of src/experiments/cursor/sample.py -/

/-- A cursor position, the dict {'x': ..., 'y': ...} of sample.py. -/
structure Cursor where
  x : ℤ
  y : ℤ
deriving DecidableEq, Repr

/-- NUM_CURSORS = 2**2 (sample.py line 17). -/
def NUM_CURSORS : ℕ := 2 ^ 2

/-- SPREAD_REDUCTION_FACTOR = 0.5 (sample.py line 18). -/
def SPREAD_REDUCTION_FACTOR : ℚ := 1 / 2

/-- MAX_OVERLAP_RATIO = 0.2 (sample.py line 20). -/
def MAX_OVERLAP_RATIO : ℚ := 1 / 5

/-- CONSENSUS_THRESHOLD = 2 (sample.py line 24). -/
def CONSENSUS_THRESHOLD : ℕ := 2

/-- Python's int() on a float value: truncation toward zero.  For 0 ≤ q this is
the floor; for q < 0 it is the ceiling, written -⌊-q⌋. -/
def ratTrunc (q : ℚ) : ℤ := if 0 ≤ q then ⌊q⌋ else -⌊-q⌋

/-- generate_cursors (sample.py lines 51-92).  'rand' is the stream of
random.random() values; call k of the pass consumes rand k, two calls per
cursor in row-major (i, j) order, x jitter before y jitter. -/
def generate_cursors (center : Cursor) (spread : ℚ) (width height : ℤ)
    (jitter : ℚ) (rand : ℕ → ℚ) : List Cursor :=
  let grid_size : ℕ := Nat.sqrt NUM_CURSORS
  let cell_width : ℚ := ((width : ℚ) * spread) / (grid_size : ℚ)
  let cell_height : ℚ := ((height : ℚ) * spread) / (grid_size : ℚ)
  let start_x : ℚ := (center.x : ℚ) - (cell_width * ((grid_size : ℚ) - 1)) / 2
  let start_y : ℚ := (center.y : ℚ) - (cell_height * ((grid_size : ℚ) - 1)) / 2
  (List.range grid_size).flatMap fun i =>
    (List.range grid_size).map fun j =>
      let k : ℕ := i * grid_size + j
      let x0 := ratTrunc (start_x + (i : ℚ) * cell_width)
      let y0 := ratTrunc (start_y + (j : ℚ) * cell_height)
      let x1 := x0 + ratTrunc ((rand (2 * k) - 1/2) * cell_width * jitter)
      let y1 := y0 + ratTrunc ((rand (2 * k + 1) - 1/2) * cell_height * jitter)
      { x := max 0 (min (width - 1) x1), y := max 0 (min (height - 1) y1) }

/-- Counter(votes).most_common(1)[0] (sample.py line 306): the pair of the most
frequently occurring vote and its count, ties broken by first occurrence
(Counter iterates keys in insertion order and Python's sort is stable).
Processing the votes in order with a strict comparison picks exactly the
first-seen label among those of maximal count.  Returns (0, 0) on []. -/
def mostCommon (votes : List ℤ) : ℤ × ℕ :=
  votes.foldl (fun acc v => if acc.2 < votes.count v then (v, votes.count v) else acc) (0, 0)

/-- Python list indexing lst[i], including negative-index wraparound:
cursors[closest_number - 1] at sample.py line 311 can see a negative index
when the model answers 0.  'none' models an IndexError. -/
def pyGet (l : List Cursor) (i : ℤ) : Option Cursor :=
  if 0 ≤ i then l.get? i.toNat
  else if 0 ≤ i + (l.length : ℤ) then l.get? (i + (l.length : ℤ)).toNat
  else none

/-- Oracle inputs of one pass of the inner sampling loop (sample.py lines
278-309): the random stream used by generate_cursors, the overlap ratio
computed by draw_labelled_cursors for the rendered image (it depends on font
metrics, so it is an oracle), and the parsed result['closest'] of the model
response ('none' models closest is None). -/
structure Pass where
  rand : ℕ → ℚ
  overlap : ℚ
  response : Option ℤ

/-- Observable events of one run of main (sample.py lines 217-334), used to
state ordering properties.  'restore' records the history-pop branch (lines
300-304) with the center/spread values before and after the pop; 'refine'
records lines 310-314 together with the votes, the final pass cursors and the
consensus label it used. -/
inductive SampleEvent where
  | estimate (cursors : List Cursor)
  | render
  | query (response : Option ℤ)
  | vote (label : ℤ) (reached : Bool)
  | restore (oldCenter newCenter : Cursor) (oldSpread newSpread : ℚ)
  | refine (votes : List ℤ) (cursors : List Cursor) (label : ℤ)
      (oldCenter newCenter : Cursor) (oldSpread newSpread : ℚ)
deriving DecidableEq, Repr

/-- The mutable state of main (sample.py lines 236-243 and 274-277), together
with ghost fields that record observations: 'overlaps' collects the
max_overlap_ratio of each completed iteration, 'spreadLog' the spread value
after each completed iteration, 'image' stands for the base screenshot (only
copies of it are ever drawn on), and 'trace' the event log. -/
structure SearchState where
  center : Cursor
  spread : ℚ
  centerHistory : List Cursor
  spreadHistory : List ℚ
  votes : List ℤ
  maxOverlap : ℚ
  identified : List Cursor
  overlaps : List ℚ
  spreadLog : List ℚ
  iteration : ℕ
  image : ℤ
  trace : List SampleEvent
deriving DecidableEq, Repr

/-- Result of the inner sampling loop (sample.py lines 278-309).  'consensus'
carries the state, the cursors of the final pass and the most-common label;
'popEmpty' models the IndexError of center_history.pop() on an empty list;
'outOfPasses' means the oracle input was exhausted (the loop would block). -/
inductive InnerOutcome where
  | consensus (st : SearchState) (cursors : List Cursor) (label : ℤ)
  | popEmpty (st : SearchState)
  | outOfPasses (st : SearchState)
deriving DecidableEq, Repr

/-- The inner sampling loop, sample.py lines 278-309.  Each pass generates
cursors from the current center and spread, renders (recording the overlap
ratio), queries the model, and either casts a vote and checks the consensus
threshold, or on a None response pops the history stacks (modelled with the
most recent entry at the head). -/
def innerLoop (width height : ℤ) (jitter : ℚ) : List Pass → SearchState → InnerOutcome
  | [], st => .outOfPasses st
  | p :: rest, st =>
    let cursors := generate_cursors st.center st.spread width height jitter p.rand
    let base : SearchState :=
      { st with maxOverlap := max p.overlap st.maxOverlap,
                trace := st.trace ++ [.estimate cursors, .render, .query p.response] }
    match p.response with
    | none =>
      match base.centerHistory, base.spreadHistory with
      | c :: cs, s :: ss =>
        innerLoop width height jitter rest
          { base with center := c, spread := s, centerHistory := cs, spreadHistory := ss,
                      trace := base.trace ++ [.restore base.center c base.spread s] }
      | _, _ => .popEmpty base
    | some v =>
      let votes := base.votes ++ [v]
      let mc := mostCommon votes
      if CONSENSUS_THRESHOLD ≤ mc.2 then
        .consensus { base with votes := votes, trace := base.trace ++ [.vote v true] }
          cursors mc.1
      else
        innerLoop width height jitter rest
          { base with votes := votes, trace := base.trace ++ [.vote v false] }

/-- The state carried by any inner-loop outcome. -/
def InnerOutcome.state : InnerOutcome → SearchState
  | .consensus st _ _ => st
  | .popEmpty st => st
  | .outOfPasses st => st

/-- Line 246 of sample.py: 'if MAX_ITERATIONS and iteration > MAX_ITERATIONS'.
MAX_ITERATIONS is None in the source; the model keeps it as a parameter.
Python truthiness makes the value 0 behave like None. -/
def hitIterLimit (maxIter : Option ℕ) (iteration : ℕ) : Bool :=
  match maxIter with
  | some m => decide (0 < m) && decide (m < iteration)
  | none => false

/-- Result of the outer search loop of main (sample.py lines 245-319). -/
inductive Outcome where
  | overlapStop (st : SearchState)
  | iterLimit (st : SearchState)
  | popEmptyErr (st : SearchState)
  | indexErr (st : SearchState)
  | outOfInput (st : SearchState)
deriving DecidableEq, Repr

/-- The state carried by any outcome. -/
def Outcome.state : Outcome → SearchState
  | .overlapStop st => st
  | .iterLimit st => st
  | .popEmptyErr st => st
  | .indexErr st => st
  | .outOfInput st => st

/-- Whether the outcome is the overlap-ratio break of sample.py line 316. -/
def Outcome.isOverlapStop : Outcome → Bool
  | .overlapStop _ => true
  | _ => false

/-- Whether the outcome is the MAX_ITERATIONS break of sample.py line 246. -/
def Outcome.isIterLimit : Outcome → Bool
  | .iterLimit _ => true
  | _ => false

/-- The outer search loop of main (sample.py lines 245-319), driven by one
list of pass oracles per iteration.  Per iteration: check the iteration limit,
reset votes and max_overlap_ratio, push center and spread onto the history
stacks, run the inner sampling loop; on consensus take
cursors[closest_number - 1], append it to identified_locations, make it the
new center, halve the spread, and stop if the maximal overlap ratio of the
iteration exceeded MAX_OVERLAP_RATIO. -/
def outerLoop (width height : ℤ) (jitter : ℚ) (maxIter : Option ℕ) :
    List (List Pass) → SearchState → Outcome
  | [], st =>
    if hitIterLimit maxIter st.iteration then .iterLimit st else .outOfInput st
  | passes :: rest, st =>
    if hitIterLimit maxIter st.iteration then .iterLimit st
    else
      let st1 : SearchState :=
        { st with votes := [], maxOverlap := 0,
                  centerHistory := st.center :: st.centerHistory,
                  spreadHistory := st.spread :: st.spreadHistory }
      match innerLoop width height jitter passes st1 with
      | .outOfPasses st2 => .outOfInput st2
      | .popEmpty st2 => .popEmptyErr st2
      | .consensus st2 cursors label =>
        match pyGet cursors (label - 1) with
        | none => .indexErr st2
        | some loc =>
          let st3 : SearchState :=
            { st2 with identified := st2.identified ++ [loc],
                       overlaps := st2.overlaps ++ [st2.maxOverlap],
                       spreadLog := st2.spreadLog ++ [st2.spread * SPREAD_REDUCTION_FACTOR],
                       center := loc,
                       spread := st2.spread * SPREAD_REDUCTION_FACTOR,
                       trace := st2.trace ++
                         [.refine st2.votes cursors label st2.center loc st2.spread
                            (st2.spread * SPREAD_REDUCTION_FACTOR)] }
          if MAX_OVERLAP_RATIO < st2.maxOverlap then .overlapStop st3
          else outerLoop width height jitter maxIter rest
            { st3 with iteration := st3.iteration + 1 }

/-- The initial state of main (sample.py lines 236-243): center at the image
center, spread 1.0, iteration 1, empty histories and logs.  'img' is an
abstract identifier for the base image. -/
def initState (width height : ℤ) (img : ℤ) : SearchState :=
  { center := { x := width / 2, y := height / 2 }, spread := 1,
    centerHistory := [], spreadHistory := [], votes := [], maxOverlap := 0,
    identified := [], overlaps := [], spreadLog := [], iteration := 1,
    image := img, trace := [] }

/-- Allowed adjacency of consecutive trace events: rendering follows cursor
generation, the query follows rendering, a vote on label l follows a query
answered l, a history restore follows a query answered None, and a refinement
follows a vote that reached the consensus threshold.  An estimate step may
start after any event. -/
def adjOK : SampleEvent → SampleEvent → Prop
  | _, .estimate _ => True
  | prev, .render => ∃ cs, prev = .estimate cs
  | prev, .query _ => prev = .render
  | prev, .vote l _ => prev = .query (some l)
  | prev, .restore _ _ _ _ => prev = .query none
  | prev, .refine _ _ _ _ _ _ _ => ∃ l, prev = .vote l true

/-- Semantic well-formedness of a single emitted event: every refinement event
in a trace uses the most-common label of its votes, that label reached the
consensus threshold, its new center is cursors[label - 1] (Python indexing),
and its new spread is the old spread times SPREAD_REDUCTION_FACTOR. -/
def emitOK : SampleEvent → Prop
  | .refine v cs lb _ nc os ns =>
      pyGet cs (lb - 1) = some nc ∧ ns = os * SPREAD_REDUCTION_FACTOR ∧
      lb ∈ v ∧ CONSENSUS_THRESHOLD ≤ v.count lb ∧
      (∀ x, v.count x ≤ v.count lb) ∧ lb = (mostCommon v).1
  | _ => True

/-- Written from the specification text of claim C5, for comparison with
generate_cursors: the grid cell (i, j) around the center with cell size
(width*spread/grid_size, height*spread/grid_size), plus jitter, clamped to the
image bounds. -/
def specGridCursor (center : Cursor) (spread : ℚ) (width height : ℤ)
    (jitter : ℚ) (rand : ℕ → ℚ) (i j : ℕ) : Cursor :=
  let grid_size : ℕ := 2
  let cell_width : ℚ := ((width : ℚ) * spread) / (grid_size : ℚ)
  let cell_height : ℚ := ((height : ℚ) * spread) / (grid_size : ℚ)
  let start_x : ℚ := (center.x : ℚ) - (cell_width * ((grid_size : ℚ) - 1)) / 2
  let start_y : ℚ := (center.y : ℚ) - (cell_height * ((grid_size : ℚ) - 1)) / 2
  let k : ℕ := i * grid_size + j
  let x1 := ratTrunc (start_x + (i : ℚ) * cell_width) +
    ratTrunc ((rand (2 * k) - 1/2) * cell_width * jitter)
  let y1 := ratTrunc (start_y + (j : ℚ) * cell_height) +
    ratTrunc ((rand (2 * k + 1) - 1/2) * cell_height * jitter)
  { x := max 0 (min (width - 1) x1), y := max 0 (min (height - 1) y1) }

/-- Whether an event is a history restore that changes the spread value. -/
def isSpreadChangingRestore : SampleEvent → Bool
  | .restore _ _ os ns => decide (os ≠ ns)
  | _ => false

/-- A concrete oracle pass with the constant random stream 1/2 (which makes
the jitter terms vanish), a given overlap ratio and a given response. -/
def exPass (r : Option ℤ) (ov : ℚ) : Pass :=
  { rand := fun _ => 1/2, overlap := ov, response := r }

/-- Concrete one-iteration run input: consensus after two identical votes,
with overlap ratio 1 observed on the final pass. -/
def exIters1 : List (List Pass) := [[exPass (some 1) 0, exPass (some 1) 1]]

/-- Concrete two-iteration run input: both iterations reach consensus after
two identical votes; the second iteration observes overlap ratio 1. -/
def exIters2 : List (List Pass) :=
  [[exPass (some 1) 0, exPass (some 1) 0],
   [exPass (some 2) 0, exPass (some 2) 1]]

/-- Concrete run input whose second iteration answers closest = None twice
before reaching consensus, which pops the history stacks twice. -/
def exIters3 : List (List Pass) :=
  [[exPass (some 1) 0, exPass (some 1) 0],
   [exPass none 0, exPass none 0, exPass (some 2) 0, exPass (some 2) 1]]

/-- The outcome of running main on exIters2 with MAX_ITERATIONS = 5 on a
100 x 100 image. -/
def exRun2 : Outcome := outerLoop 100 100 (1/100) (some 5) exIters2 (initState 100 100 0)

/-- The outcome of running main on exIters3 with MAX_ITERATIONS = None on a
100 x 100 image. -/
def exRun3 : Outcome := outerLoop 100 100 (1/100) none exIters3 (initState 100 100 0)

/-! ## Model of src/experiments/cursor/grid.py (main, lines 128-195) -/

/-- Lexicographic comparison of (row, col) pairs, the order Python's sorted
uses on tuples of two ints. -/
def pairLe (a b : ℤ × ℤ) : Bool :=
  decide (a.1 < b.1 ∨ (a.1 = b.1 ∧ a.2 ≤ b.2))

/-- sorted(result["coordinates"]) at grid.py line 183.  Stability is
irrelevant for a total order on pairs, so insertion sort computes the same
list as Python's sort. -/
def pySort (l : List (ℤ × ℤ)) : List (ℤ × ℤ) :=
  l.insertionSort (fun a b => pairLe a b)

/-- The feedback loop of grid.py main (lines 140-195), driven by the list of
coordinate lists the model returns.  Each iteration sorts the response,
stops if the sorted list equals one produced by an earlier iteration,
and otherwise appends it to all_coordinates and continues.  Returns the
history and the repeated list on termination; 'none' if the oracle input is
exhausted before a repeat. -/
def gridLoop : List (List (ℤ × ℤ)) → List (List (ℤ × ℤ)) →
    Option (List (List (ℤ × ℤ)) × List (ℤ × ℤ))
  | [], _ => none
  | r :: rest, all =>
    let coordinates := pySort r
    if coordinates ∈ all then some (all, coordinates)
    else gridLoop rest (all ++ [coordinates])

/-! ## Model of src/openadapt/db/crud.py -/

/-- BATCH_SIZE = 1 (crud.py line 27). -/
def BATCH_SIZE : ℕ := 1

/-- Dictionary lookup on an association list (first binding wins, as in a
Python dict whose keys are unique). -/
def dictGet {V : Type} : List (String × V) → String → Option V
  | [], _ => none
  | kv :: rest, k => if kv.1 = k then some kv.2 else dictGet rest k

/-- The row object built by _insert (crud.py lines 56-61): one entry per
column of the table, holding the event_data value for that key when present
and None otherwise.  SQLAlchemy column names of one table are distinct, so the
dict comprehension of line 56 is a plain map over the column list. -/
def buildRow {V : Type} (columns : List String) (data : List (String × V)) :
    List (String × Option V) :=
  columns.map fun c => (c, dictGet data c)

/-- Result model of _insert (crud.py lines 39-76).  The assertion at line 64
fires exactly when some event_data key is not a column name; the error carries
the leftover entries (the assert message).  On success, with a buffer the row
is appended and, because the buffer length then reaches BATCH_SIZE = 1, the
whole buffer is inserted and cleared; without a buffer the row is inserted
directly.  The result is the new buffer (if any) together with the list of
rows inserted into the table by this call. -/
def crudInsert {V : Type} (event_data : List (String × V)) (columns : List String)
    (buffer : Option (List (List (String × Option V)))) :
    Except (List (String × V)) (Option (List (List (String × Option V))) × List (List (String × Option V))) :=
  let leftover := event_data.filter fun kv => !columns.contains kv.1
  if leftover.isEmpty then
    let db_obj := buildRow columns event_data
    match buffer with
    | some buf =>
      let buf := buf ++ [db_obj]
      if BATCH_SIZE ≤ buf.length then .ok (some [], buf) else .ok (some buf, [])
    | none => .ok (none, [db_obj])
  else .error leftover

/-- The fields of the Recording object that the insert helpers read
(crud.py lines 94-95): recording.id and recording.timestamp. -/
structure RecordingRef (V : Type) where
  id : V
  timestamp : V

/-- Event-data extension performed by insert_action_event, insert_screenshot
and insert_window_event (crud.py lines 91-96, 112-117, 133-138): the dict
{**event_data, "timestamp": ts, "recording_id": id,
"recording_timestamp": recording_ts}; later keys win, as in Python. -/
def extendEventData {V : Type} (data : List (String × V)) (ts rid rts : V) :
    List (String × V) :=
  (data.filter fun kv =>
      !(["timestamp", "recording_id", "recording_timestamp"].contains kv.1)) ++
    [("timestamp", ts), ("recording_id", rid), ("recording_timestamp", rts)]

/-- insert_action_event (crud.py lines 79-97); the ActionEvent table is
abstracted by its column-name list and the module-level action_events buffer
by the buffer argument. -/
def insert_action_event {V : Type} (recording : RecordingRef V) (event_timestamp : V)
    (event_data : List (String × V)) (columns : List String)
    (buffer : Option (List (List (String × Option V)))) :
    Except (List (String × V)) (Option (List (List (String × Option V))) × List (List (String × Option V))) :=
  crudInsert (extendEventData event_data event_timestamp recording.id recording.timestamp)
    columns buffer

/-- insert_screenshot (crud.py lines 100-118); identical to
insert_action_event up to the table and buffer. -/
def insert_screenshot {V : Type} (recording : RecordingRef V) (event_timestamp : V)
    (event_data : List (String × V)) (columns : List String)
    (buffer : Option (List (List (String × Option V)))) :
    Except (List (String × V)) (Option (List (List (String × Option V))) × List (List (String × Option V))) :=
  crudInsert (extendEventData event_data event_timestamp recording.id recording.timestamp)
    columns buffer

/-- insert_window_event (crud.py lines 121-139); identical to
insert_action_event up to the table and buffer. -/
def insert_window_event {V : Type} (recording : RecordingRef V) (event_timestamp : V)
    (event_data : List (String × V)) (columns : List String)
    (buffer : Option (List (List (String × Option V)))) :
    Except (List (String × V)) (Option (List (List (String × Option V))) × List (List (String × Option V))) :=
  crudInsert (extendEventData event_data event_timestamp recording.id recording.timestamp)
    columns buffer

/-! ## Model of the database lock (crud.py lines 29-31, 699-718)

The lock is an asyncio.Event created set (lines 30-31).  acquire_db_lock
awaits lock.wait(), which completes only while the event is set, then clears
the event and returns True, with no await point between the wait and the
clear; release_db_lock sets the event and replaces the module session via
new_session().  The state machine below takes these two operations as atomic
steps; 'holders' counts completed acquires not yet followed by a release, and
'sessionGen' counts session replacements. -/

/-- State of the database-lock machine. -/
structure DbLockState where
  eventSet : Bool
  holders : ℕ
  sessionGen : ℕ
deriving DecidableEq, Repr

/-- Initial state: crud.py lines 29-31 create the session and the event and
set the event. -/
def dbLockInit : DbLockState := { eventSet := true, holders := 0, sessionGen := 0 }

/-- The two operations of the lock construct. -/
inductive DbOp where
  | acquire
  | release
deriving DecidableEq, Repr

/-- One atomic step: acquire_db_lock (lines 699-710) completes only while the
event is set and clears it; release_db_lock (lines 713-718) sets the event and
replaces the session. -/
inductive DbStep : DbOp → DbLockState → DbLockState → Prop
  | acquire (s : DbLockState) (h : s.eventSet = true) :
      DbStep .acquire s { eventSet := false, holders := s.holders + 1, sessionGen := s.sessionGen }
  | release (s : DbLockState) :
      DbStep .release s { eventSet := true, holders := s.holders - 1, sessionGen := s.sessionGen + 1 }

/-- States reachable from the initial lock state by acquire/release steps. -/
inductive DbReachable : DbLockState → Prop
  | init : DbReachable dbLockInit
  | step {s t : DbLockState} {op : DbOp} (hs : DbReachable s) (h : DbStep op s t) : DbReachable t

/-! ## Model of maximally_different_color (sample.py lines 28-49)

The numpy/sklearn/scipy calls are oracles: 'shuffle' is the permutation
np.random.shuffle applies after np.random.seed(seed) (the source passes 42 and
thereby discards the ambient RNG state, which the model threads explicitly as
'ambient'), 'kmeans' maps (n_clusters, data) to the cluster centers computed
with random_state=42, and 'sumDist' is the row sum of the euclidean cdist
matrix.  What remains from the source is exact: the sampling rule, the
candidate color lattice range(0, 256, 8)³, and np.argmax (first maximal
index). -/

/-- An RGB triple. -/
structure RGBColor where
  r : ℤ
  g : ℤ
  b : ℤ
deriving DecidableEq, Repr

/-- The candidate colors [[r, g, b] for r in range(0, 256, 8) ...]
(sample.py line 44). -/
def allColors : List RGBColor :=
  (List.range 32).flatMap fun (r : ℕ) =>
    (List.range 32).flatMap fun (g : ℕ) =>
      (List.range 32).map fun (b : ℕ) =>
        { r := 8 * (r : ℤ), g := 8 * (g : ℤ), b := 8 * (b : ℤ) }

/-- np.argmax on a list of scores: index of the first maximal element. -/
def argmaxIdx (l : List ℚ) : ℕ :=
  (l.foldl (fun acc x =>
      if acc.2.2 < x then (acc.1 + 1, acc.1, x) else (acc.1 + 1, acc.2.1, acc.2.2))
    (0, 0, 0)).2.1

/-- maximally_different_color (sample.py lines 28-49) over the oracles
described above.  'ambient' is the numpy global RNG state on entry; the
function reseeds with 42 before shuffling, so 'ambient' is dead. -/
def maximally_different_color
    (shuffle : ℕ → List RGBColor → List RGBColor)
    (kmeans : ℕ → List RGBColor → List (ℚ × ℚ × ℚ))
    (sumDist : RGBColor → List (ℚ × ℚ × ℚ) → ℚ)
    (ambient : ℕ) (image : List RGBColor) (sample_size n_clusters : ℕ) : RGBColor :=
  let np_img := image
  let sampled_colors :=
    if sample_size < np_img.length then
      (shuffle 42 np_img).take sample_size
    else np_img
  let cluster_centers := kmeans n_clusters sampled_colors
  let sum_distances := allColors.map fun c => sumDist c cluster_centers
  allColors.getD (argmaxIdx sum_distances) { r := 0, g := 0, b := 0 }

/-! ## Theorems: the database lock (claim C6) -/

/-- Safety invariant of the lock machine: a reachable state has at most one
holder, and whenever the event is set there is no holder. -/
theorem dbLock_invariant (s : DbLockState) (h : DbReachable s) :
    s.holders ≤ 1 ∧ (s.eventSet = true → s.holders = 0) := by
  induction h with
  | init => simp [dbLockInit]
  | @step s0 t0 op hs hstep ih =>
    cases hstep with
    | acquire t he =>
      have h0 := ih.2 he
      constructor
      · simp [h0]
      · intro hf
        simp at hf
    | release u =>
      have h1 := ih.1
      constructor
      · show s0.holders - 1 ≤ 1
        omega
      · intro _
        show s0.holders - 1 = 0
        omega

/-- C6: the mutex-like construct of crud.py guards the singleton session
against reentrant access.  In the state machine whose atomic steps are
acquire_db_lock (crud.py lines 699-710) and release_db_lock (lines 713-718):
an acquire completes only while the event is set, clears it, and increments
the holder count; a release sets the event again and replaces the session;
every reachable state has at most one holder; and from a reachable state with
a holder no second acquire step is possible until a release happens. -/
theorem claim_C6 :
    (∀ s, DbReachable s → s.holders ≤ 1 ∧ (s.eventSet = true → s.holders = 0)) ∧
    (∀ s t, DbReachable s → 1 ≤ s.holders → ¬ DbStep .acquire s t) ∧
    (∀ s t, DbStep .acquire s t →
      s.eventSet = true ∧ t.eventSet = false ∧ t.holders = s.holders + 1) ∧
    (∀ s t, DbStep .release s t →
      t.eventSet = true ∧ t.sessionGen = s.sessionGen + 1) := by
  refine ⟨fun s hs => dbLock_invariant s hs, ?_, ?_, ?_⟩
  · intro s t hs hh hstep
    cases hstep with
    | acquire _ he =>
      have h0 := (dbLock_invariant s hs).2 he
      omega
  · intro s t hstep
    cases hstep with
    | acquire _ he => exact ⟨he, rfl, rfl⟩
  · intro s t hstep
    cases hstep with
    | release _ => exact ⟨rfl, rfl⟩

/-- Witness for C6 at the concrete state reached by one acquire from the
initial state. -/
theorem claim_C6_witness :
    ({ eventSet := false, holders := 1, sessionGen := 0 } : DbLockState).holders ≤ 1 ∧
    (¬ DbStep .acquire { eventSet := false, holders := 1, sessionGen := 0 }
      { eventSet := false, holders := 2, sessionGen := 0 }) ∧
    (dbLockInit.eventSet = true ∧
      ({ eventSet := false, holders := 1, sessionGen := 0 } : DbLockState).eventSet = false ∧
      ({ eventSet := false, holders := 1, sessionGen := 0 } : DbLockState).holders = dbLockInit.holders + 1) ∧
    (({ eventSet := true, holders := 0, sessionGen := 1 } : DbLockState).eventSet = true ∧
      ({ eventSet := true, holders := 0, sessionGen := 1 } : DbLockState).sessionGen =
        ({ eventSet := false, holders := 1, sessionGen := 0 } : DbLockState).sessionGen + 1) := by
  have hreach : DbReachable { eventSet := false, holders := 1, sessionGen := 0 } := by
    have h := DbReachable.step DbReachable.init (DbStep.acquire dbLockInit rfl)
    simpa [dbLockInit] using h
  refine ⟨(claim_C6.1 _ hreach).1, claim_C6.2.1 _ _ hreach (by decide), ?_, ?_⟩
  · have h := claim_C6.2.2.1 dbLockInit
      { eventSet := false, holders := 1, sessionGen := 0 }
      (by simpa [dbLockInit] using DbStep.acquire dbLockInit rfl)
    simpa [dbLockInit] using h
  · have h := claim_C6.2.2.2 { eventSet := false, holders := 1, sessionGen := 0 }
      { eventSet := true, holders := 0, sessionGen := 1 }
      (DbStep.release { eventSet := false, holders := 1, sessionGen := 0 })
    simpa using h

/-! ## Theorems: the grid localization loop (claim C7) -/

/-- Generalized specification of gridLoop: on termination it returns the
accumulated history (everything consumed so far, sorted) and the first
response whose sorted form repeats an entry of that history; the history
stays duplicate-free. -/
theorem gridLoop_spec :
    ∀ (rs all hist : List (List (ℤ × ℤ))) (c : List (ℤ × ℤ)),
      gridLoop rs all = some (hist, c) → all.Nodup →
      hist.Nodup ∧ c ∈ hist ∧
      ∃ k r, hist = all ++ (rs.take k).map pySort ∧
        rs.get? k = some r ∧ pySort r = c := by
  intro rs
  induction rs with
  | nil => intro all hist c h; simp [gridLoop] at h
  | cons r rest ih =>
    intro all hist c h hnd
    rw [gridLoop] at h
    by_cases hm : pySort r ∈ all
    · simp only [hm, if_pos] at h
      obtain ⟨h1, h2⟩ := Prod.mk.injEq .. ▸ Option.some.inj h
      subst h1
      subst h2
      refine ⟨hnd, hm, 0, r, by simp, by simp, rfl⟩
    · simp only [hm, if_neg, not_false_iff] at h
      have hnd2 : (all ++ [pySort r]).Nodup := by
        simp [List.nodup_append, hnd, hm]
      obtain ⟨h1, h2, k, r2, h3, h4, h5⟩ := ih (all ++ [pySort r]) hist c h hnd2
      refine ⟨h1, h2, k + 1, r2, ?_, by simpa using h4, h5⟩
      rw [h3, List.take_succ_cons, List.map_cons, List.append_assoc]
      simp

/-- C7: the grid-based localization loop of grid.py main (lines 140-195)
stops exactly when the sorted coordinate list returned by the model equals a
list produced in an earlier iteration; until then each sorted response is
appended to the history, so the history holds the sorted forms of all
consumed responses, is duplicate-free, and the repeated answer is a member of
it. -/
theorem claim_C7 :
    ∀ (rs hist : List (List (ℤ × ℤ))) (c : List (ℤ × ℤ)),
      gridLoop rs [] = some (hist, c) →
      hist.Nodup ∧ c ∈ hist ∧
      hist = (rs.take hist.length).map pySort ∧
      ∃ r, rs.get? hist.length = some r ∧ pySort r = c := by
  intro rs hist c h
  obtain ⟨h1, h2, k, r, h3, h4, h5⟩ := gridLoop_spec rs [] hist c h (by simp)
  simp only [List.nil_append] at h3
  have hk : k < rs.length := by
    rcases List.get?_eq_some.1 h4 with ⟨hlt, -⟩
    exact hlt
  have hlen : hist.length = k := by
    rw [h3, List.length_map, List.length_take]
    omega
  exact ⟨h1, h2, by rw [hlen, ← h3], by rw [hlen]; exact ⟨r, h4, h5⟩⟩

/-- Witness for C7: a run whose third response repeats the sorted form of the
first (the first response arrives unsorted). -/
theorem claim_C7_witness :
    gridLoop [[(2, 1), (1, 2)], [(5, 5)], [(1, 2), (2, 1)]] [] =
      some ([[(1, 2), (2, 1)], [(5, 5)]], [(1, 2), (2, 1)]) ∧
    ([[(1, 2), (2, 1)], [(5, 5)]] : List (List (ℤ × ℤ))).Nodup ∧
    ([(1, 2), (2, 1)] : List (ℤ × ℤ)) ∈ [[(1, 2), (2, 1)], [(5, 5)]] := by
  have h : gridLoop [[(2, 1), (1, 2)], [(5, 5)], [(1, 2), (2, 1)]] [] =
      some ([[(1, 2), (2, 1)], [(5, 5)]], [(1, 2), (2, 1)]) := by decide
  have hc := claim_C7 [[(2, 1), (1, 2)], [(5, 5)], [(1, 2), (2, 1)]]
    [[(1, 2), (2, 1)], [(5, 5)]] [(1, 2), (2, 1)] h
  exact ⟨h, hc.1, hc.2.1⟩

/-! ## Theorems: the CRUD insert path (claims C8, C9) -/

/-- Dictionary lookup finds the value of a present key when the keys are
duplicate-free. -/
theorem dictGet_eq_some {V : Type} :
    ∀ (data : List (String × V)) (k : String) (v : V),
      (data.map Prod.fst).Nodup → (k, v) ∈ data → dictGet data k = some v := by
  intro data
  induction data with
  | nil => intro k v _ hm; simp at hm
  | cons kv rest ih =>
    intro k v hnd hm
    rw [dictGet]
    by_cases hk : kv.1 = k
    · simp only [hk, if_pos]
      rcases List.mem_cons.1 hm with h | h
      · rw [← h]
      · exfalso
        have hmem : k ∈ rest.map Prod.fst := List.mem_map.2 ⟨(k, v), h, rfl⟩
        have hnin := (List.nodup_cons.1 hnd).1
        rw [hk] at hnin
        exact hnin hmem
    · simp only [hk, if_neg, not_false_iff]
      rcases List.mem_cons.1 hm with h | h
      · exact absurd (by rw [← h]) hk
      · exact ih k v (List.nodup_cons.1 hnd).2 h

/-- Dictionary lookup of an absent key yields none. -/
theorem dictGet_eq_none {V : Type} :
    ∀ (data : List (String × V)) (k : String),
      k ∉ data.map Prod.fst → dictGet data k = none := by
  intro data
  induction data with
  | nil => intro k _; rfl
  | cons kv rest ih =>
    intro k hk
    rw [dictGet]
    simp only [List.map_cons, List.mem_cons, not_or] at hk
    have hne : ¬ kv.1 = k := fun h => hk.1 h.symm
    simp only [hne, if_neg, not_false_iff]
    exact ih k hk.2

/-- When every event_data key is a column, _insert succeeds: with a buffer the
row is appended and the buffer (length 1 ≥ BATCH_SIZE) is flushed; without a
buffer the row is inserted directly. -/
theorem crudInsert_ok {V : Type} (data : List (String × V)) (columns : List String)
    (hall : ∀ kv ∈ data, kv.1 ∈ columns) :
    (∀ buf, crudInsert data columns (some buf) =
      .ok (some [], buf ++ [buildRow columns data])) ∧
    crudInsert data columns none = .ok (none, [buildRow columns data]) := by
  have hnil : (data.filter fun kv => !columns.contains kv.1) = [] := by
    rw [List.filter_eq_nil_iff]
    intro kv hkv
    simpa using hall kv hkv
  constructor
  · intro buf
    have hlen : BATCH_SIZE ≤ buf.length + 1 := by unfold BATCH_SIZE; omega
    simp [crudInsert, hnil, hlen]
    exact fun a b hm => hall (a, b) hm
  · simp [crudInsert, hnil]
    exact fun a b hm => hall (a, b) hm

/-- When some event_data key is not a column, _insert fails its assertion,
whatever the buffer is. -/
theorem crudInsert_error {V : Type} (data : List (String × V)) (columns : List String)
    (kv : String × V) (hkv : kv ∈ data) (hnc : kv.1 ∉ columns) :
    ∀ buffer, crudInsert data columns buffer =
      .error (data.filter fun kv => !columns.contains kv.1) := by
  intro buffer
  have hmem : kv ∈ data.filter fun kv => !columns.contains kv.1 :=
    List.mem_filter.2 ⟨hkv, by simpa using hnc⟩
  have hemp : (data.filter fun kv => !columns.contains kv.1).isEmpty = false := by
    cases hfe : data.filter fun kv => !columns.contains kv.1 with
    | nil => rw [hfe] at hmem; simp at hmem
    | cons a l => simp
  simp only [crudInsert, hemp]
  simp

/-- C9: _insert (crud.py lines 39-76) raises its AssertionError if and only
if some key of event_data is not a column of the target table; otherwise the
row it buffers and (with BATCH_SIZE = 1) inserts holds every key-value pair of
event_data, holds None at every column absent from event_data, and is the
single row inserted by the call. -/
theorem claim_C9 :
    ∀ (V : Type) (data : List (String × V)) (columns : List String),
      (∀ buffer, ((∃ err, crudInsert data columns buffer = .error err) ↔
        ∃ kv ∈ data, kv.1 ∉ columns)) ∧
      ((∀ kv ∈ data, kv.1 ∈ columns) → (data.map Prod.fst).Nodup →
        (∀ k v, (k, v) ∈ data → (k, some v) ∈ buildRow columns data) ∧
        (∀ c ∈ columns, c ∉ data.map Prod.fst → (c, none) ∈ buildRow columns data) ∧
        (∀ buf, crudInsert data columns (some buf) =
          .ok (some [], buf ++ [buildRow columns data])) ∧
        crudInsert data columns none = .ok (none, [buildRow columns data])) := by
  intro V data columns
  constructor
  · intro buffer
    constructor
    · rintro ⟨err, herr⟩
      by_contra hno
      push_neg at hno
      have hall : ∀ kv ∈ data, kv.1 ∈ columns := hno
      cases buffer with
      | some buf =>
        rw [(crudInsert_ok data columns hall).1 buf] at herr
        exact Except.noConfusion herr
      | none =>
        rw [(crudInsert_ok data columns hall).2] at herr
        exact Except.noConfusion herr
    · rintro ⟨kv, hkv, hnc⟩
      exact ⟨_, crudInsert_error data columns kv hkv hnc buffer⟩
  · intro hall hnd
    refine ⟨?_, ?_, (crudInsert_ok data columns hall).1, (crudInsert_ok data columns hall).2⟩
    · intro k v hm
      have hk : k ∈ columns := hall (k, v) hm
      have hv : dictGet data k = some v := dictGet_eq_some data k v hnd hm
      exact List.mem_map.2 ⟨k, hk, by rw [hv]⟩
    · intro c hc habs
      have hv : dictGet data c = none := dictGet_eq_none data c habs
      exact List.mem_map.2 ⟨c, hc, by rw [hv]⟩

/-- Witness for C9: a table with columns [a, b] and event data {a ↦ 7}; the
row is [(a, some 7), (b, none)] and is the single row inserted; adding a stray
key e makes the call fail the assertion. -/
theorem claim_C9_witness :
    (("a", some 7) ∈ buildRow ["a", "b"] [("a", (7 : ℤ))]) ∧
    (("b", (none : Option ℤ)) ∈ buildRow ["a", "b"] [("a", (7 : ℤ))]) ∧
    crudInsert [("a", (7 : ℤ))] ["a", "b"] (some []) =
      .ok (some [], [buildRow ["a", "b"] [("a", (7 : ℤ))]]) ∧
    (∃ err, crudInsert [("a", (7 : ℤ)), ("e", 5)] ["a", "b"] (some []) = .error err) := by
  have h := (claim_C9 ℤ [("a", 7)] ["a", "b"]).2 (by simp) (by simp)
  refine ⟨h.1 "a" 7 (by simp), h.2.1 "b" (by simp) (by simp), ?_, ?_⟩
  · simpa using h.2.2.1 []
  · exact ((claim_C9 ℤ [("a", 7), ("e", 5)] ["a", "b"]).1 (some [])).2
      ⟨("e", 5), by simp, by simp⟩

/-- The extension with timestamp, recording_id and recording_timestamp keeps
the event-data keys duplicate-free. -/
theorem extendEventData_keys_nodup {V : Type} (data : List (String × V)) (ts rid rts : V)
    (hnd : (data.map Prod.fst).Nodup) :
    ((extendEventData data ts rid rts).map Prod.fst).Nodup := by
  rw [extendEventData, List.map_append, List.nodup_append]
  refine ⟨?_, by simp, ?_⟩
  · exact List.Nodup.sublist (List.Sublist.map Prod.fst (List.filter_sublist data)) hnd
  · intro k hk
    simp only [List.mem_map] at hk
    obtain ⟨kv, hkv, hfst⟩ := hk
    have hp := (List.mem_filter.1 hkv).2
    simp only [Bool.not_eq_true'] at hp
    intro hmem
    simp only [List.map_cons, List.map_nil] at hmem
    rw [← hfst] at hmem
    have hnm : kv.1 ∉ (["timestamp", "recording_id", "recording_timestamp"] : List String) := by
      simpa using hp
    exact hnm hmem

/-- C8: insert_action_event, insert_screenshot and insert_window_event
(crud.py lines 79-139) each insert into their table exactly one row holding
the caller-supplied event data extended with the event timestamp under
'timestamp', the recording's id under 'recording_id' and the recording's
timestamp under 'recording_timestamp' (given that those keys are columns of
the table, which is what the assertion of _insert demands). -/
theorem claim_C8 :
    ∀ (V : Type) (recording : RecordingRef V) (event_timestamp : V)
      (data : List (String × V)) (columns : List String),
      (∀ kv ∈ extendEventData data event_timestamp recording.id recording.timestamp,
        kv.1 ∈ columns) →
      (data.map Prod.fst).Nodup →
      (("timestamp", some event_timestamp) ∈
          buildRow columns (extendEventData data event_timestamp recording.id recording.timestamp) ∧
        ("recording_id", some recording.id) ∈
          buildRow columns (extendEventData data event_timestamp recording.id recording.timestamp) ∧
        ("recording_timestamp", some recording.timestamp) ∈
          buildRow columns (extendEventData data event_timestamp recording.id recording.timestamp)) ∧
      (∀ k v, (k, v) ∈ data →
        k ∉ (["timestamp", "recording_id", "recording_timestamp"] : List String) →
        (k, some v) ∈
          buildRow columns (extendEventData data event_timestamp recording.id recording.timestamp)) ∧
      (∀ buf,
        insert_action_event recording event_timestamp data columns (some buf) =
          .ok (some [], buf ++
            [buildRow columns (extendEventData data event_timestamp recording.id recording.timestamp)]) ∧
        insert_screenshot recording event_timestamp data columns (some buf) =
          .ok (some [], buf ++
            [buildRow columns (extendEventData data event_timestamp recording.id recording.timestamp)]) ∧
        insert_window_event recording event_timestamp data columns (some buf) =
          .ok (some [], buf ++
            [buildRow columns (extendEventData data event_timestamp recording.id recording.timestamp)])) ∧
      (columns.Nodup →
        ((buildRow columns (extendEventData data event_timestamp recording.id recording.timestamp)).map
          Prod.fst).Nodup) := by
  intro V recording event_timestamp data columns hall hnd
  have hnd2 := extendEventData_keys_nodup data event_timestamp recording.id recording.timestamp hnd
  have hmemRow : ∀ k v,
      (k, v) ∈ extendEventData data event_timestamp recording.id recording.timestamp →
      (k, some v) ∈
        buildRow columns (extendEventData data event_timestamp recording.id recording.timestamp) := by
    intro k v hm
    have hk : k ∈ columns := hall (k, v) hm
    have hv := dictGet_eq_some _ k v hnd2 hm
    exact List.mem_map.2 ⟨k, hk, by rw [hv]⟩
  refine ⟨⟨?_, ?_, ?_⟩, ?_, ?_, ?_⟩
  · exact hmemRow _ _ (by simp [extendEventData])
  · exact hmemRow _ _ (by simp [extendEventData])
  · exact hmemRow _ _ (by simp [extendEventData])
  · intro k v hm hk3
    refine hmemRow _ _ ?_
    rw [extendEventData]
    refine List.mem_append_left _ (List.mem_filter.2 ⟨hm, ?_⟩)
    simpa using hk3
  · intro buf
    have hok := (crudInsert_ok (extendEventData data event_timestamp recording.id recording.timestamp)
      columns hall).1 buf
    exact ⟨hok, hok, hok⟩
  · intro hcnd
    have hkeys : (buildRow columns
        (extendEventData data event_timestamp recording.id recording.timestamp)).map Prod.fst =
        columns := by
      have hcomp : (Prod.fst ∘ fun c =>
          (c, dictGet (extendEventData data event_timestamp recording.id recording.timestamp) c)) =
          id := rfl
      rw [buildRow, List.map_map, hcomp, List.map_id]
    rw [hkeys]
    exact hcnd

/-- Witness for C8 on a concrete table with columns [timestamp, recording_id,
recording_timestamp, name] and event data {name ↦ 7}. -/
theorem claim_C8_witness :
    (("timestamp", some (3 : ℤ)) ∈
      buildRow ["timestamp", "recording_id", "recording_timestamp", "name"]
        (extendEventData [("name", (7 : ℤ))] 3 1 2)) ∧
    (("name", some (7 : ℤ)) ∈
      buildRow ["timestamp", "recording_id", "recording_timestamp", "name"]
        (extendEventData [("name", (7 : ℤ))] 3 1 2)) ∧
    insert_action_event (RecordingRef.mk (1 : ℤ) 2) 3 [("name", (7 : ℤ))]
        ["timestamp", "recording_id", "recording_timestamp", "name"] (some []) =
      .ok (some [], [buildRow ["timestamp", "recording_id", "recording_timestamp", "name"]
        (extendEventData [("name", (7 : ℤ))] 3 1 2)]) := by
  have h := claim_C8 ℤ (RecordingRef.mk 1 2) 3 [("name", 7)]
    ["timestamp", "recording_id", "recording_timestamp", "name"]
    (by intro kv hkv; simp [extendEventData] at hkv; rcases hkv with h | h | h | h <;> simp [h])
    (by simp)
  refine ⟨h.1.1, h.2.1 "name" 7 (by simp) (by simp), ?_⟩
  simpa using (h.2.2.1 []).1

/-! ## Theorems: maximally_different_color (claim C10) -/

/-- List.getD either returns a list element or the default. -/
theorem getD_mem_or_eq {α : Type} (l : List α) (n : ℕ) (d : α) :
    l.getD n d ∈ l ∨ l.getD n d = d := by
  rw [List.getD_eq_getElem?_getD]
  cases h : l[n]? with
  | none => right; simp
  | some a =>
    left
    simp only [Option.getD_some]
    exact List.getElem?_mem h

/-- Every candidate color has components that are multiples of 8 in
[0, 248]. -/
theorem allColors_bounds :
    ∀ c ∈ allColors,
      c.r % 8 = 0 ∧ 0 ≤ c.r ∧ c.r ≤ 248 ∧ c.g % 8 = 0 ∧ 0 ≤ c.g ∧ c.g ≤ 248 ∧
      c.b % 8 = 0 ∧ 0 ≤ c.b ∧ c.b ≤ 248 := by
  intro c hc
  rw [allColors] at hc
  obtain ⟨r, hr, hc2⟩ := List.mem_flatMap.1 hc
  obtain ⟨g, hg, hc3⟩ := List.mem_flatMap.1 hc2
  obtain ⟨b, hb, rfl⟩ := List.mem_map.1 hc3
  rw [List.mem_range] at hr hg hb
  refine ⟨?_, ?_, ?_, ?_, ?_, ?_, ?_, ?_, ?_⟩ <;> dsimp only <;> omega

/-- C10: maximally_different_color (sample.py lines 28-49) is deterministic:
its result does not depend on the ambient numpy RNG state, because the
sampling branch reseeds with 42 before shuffling and KMeans is pinned to
random_state=42 (both modelled as fixed oracle functions); moreover every
component of the returned RGB triple is a multiple of 8 between 0 and 248,
because the result is drawn from the candidate lattice range(0, 256, 8)³. -/
theorem claim_C10 :
    ∀ (shuffle : ℕ → List RGBColor → List RGBColor)
      (kmeans : ℕ → List RGBColor → List (ℚ × ℚ × ℚ))
      (sumDist : RGBColor → List (ℚ × ℚ × ℚ) → ℚ)
      (a1 a2 : ℕ) (image : List RGBColor) (sample_size n_clusters : ℕ),
      maximally_different_color shuffle kmeans sumDist a1 image sample_size n_clusters =
        maximally_different_color shuffle kmeans sumDist a2 image sample_size n_clusters ∧
      ((maximally_different_color shuffle kmeans sumDist a1 image sample_size n_clusters).r % 8 = 0 ∧
        0 ≤ (maximally_different_color shuffle kmeans sumDist a1 image sample_size n_clusters).r ∧
        (maximally_different_color shuffle kmeans sumDist a1 image sample_size n_clusters).r ≤ 248 ∧
        (maximally_different_color shuffle kmeans sumDist a1 image sample_size n_clusters).g % 8 = 0 ∧
        0 ≤ (maximally_different_color shuffle kmeans sumDist a1 image sample_size n_clusters).g ∧
        (maximally_different_color shuffle kmeans sumDist a1 image sample_size n_clusters).g ≤ 248 ∧
        (maximally_different_color shuffle kmeans sumDist a1 image sample_size n_clusters).b % 8 = 0 ∧
        0 ≤ (maximally_different_color shuffle kmeans sumDist a1 image sample_size n_clusters).b ∧
        (maximally_different_color shuffle kmeans sumDist a1 image sample_size n_clusters).b ≤ 248) := by
  intro shuffle kmeans sumDist a1 a2 image sample_size n_clusters
  refine ⟨rfl, ?_⟩
  have hval : maximally_different_color shuffle kmeans sumDist a1 image sample_size n_clusters ∈
      allColors ∨
      maximally_different_color shuffle kmeans sumDist a1 image sample_size n_clusters =
        { r := 0, g := 0, b := 0 } :=
    getD_mem_or_eq allColors _ _
  rcases hval with h | h
  · exact allColors_bounds _ h
  · rw [h]
    norm_num

/-! ## Theorems: generate_cursors (claim C5) -/

/-- Clamping with max/min keeps a value inside [0, bound - 1] whenever the
bound is positive. -/
theorem clamp_bounds (bound x : ℤ) (hb : 0 < bound) :
    0 ≤ max 0 (min (bound - 1) x) ∧ max 0 (min (bound - 1) x) ≤ bound - 1 := by
  constructor
  · exact le_max_left 0 _
  · exact max_le (by omega) (min_le_left _ _)

/-- The grid size of generate_cursors is 2. -/
theorem grid_size_eq : Nat.sqrt NUM_CURSORS = 2 := by
  have h4 : NUM_CURSORS = 2 * 2 := by norm_num [NUM_CURSORS]
  rw [h4, Nat.sqrt_eq]

/-- generate_cursors produces exactly the four grid cursors, in row-major
order. -/
theorem generate_cursors_eq (center : Cursor) (spread : ℚ) (width height : ℤ)
    (jitter : ℚ) (rand : ℕ → ℚ) :
    generate_cursors center spread width height jitter rand =
      [specGridCursor center spread width height jitter rand 0 0,
       specGridCursor center spread width height jitter rand 0 1,
       specGridCursor center spread width height jitter rand 1 0,
       specGridCursor center spread width height jitter rand 1 1] := by
  have hr2 : List.range 2 = [0, 1] := rfl
  simp [generate_cursors, specGridCursor, grid_size_eq, hr2]

/-- Each spec grid cursor is clamped inside the image. -/
theorem specGridCursor_bounds (center : Cursor) (spread : ℚ) (width height : ℤ)
    (jitter : ℚ) (rand : ℕ → ℚ) (i j : ℕ) (hw : 0 < width) (hh : 0 < height) :
    0 ≤ (specGridCursor center spread width height jitter rand i j).x ∧
    (specGridCursor center spread width height jitter rand i j).x ≤ width - 1 ∧
    0 ≤ (specGridCursor center spread width height jitter rand i j).y ∧
    (specGridCursor center spread width height jitter rand i j).y ≤ height - 1 := by
  obtain ⟨hx1, hx2⟩ := clamp_bounds width
    (ratTrunc (((center.x : ℚ) - ((((width : ℚ) * spread) / ((2 : ℕ) : ℚ)) * (((2 : ℕ) : ℚ) - 1)) / 2 +
        (i : ℚ) * (((width : ℚ) * spread) / ((2 : ℕ) : ℚ))) ) +
      ratTrunc ((rand (2 * (i * 2 + j)) - 1/2) * (((width : ℚ) * spread) / ((2 : ℕ) : ℚ)) * jitter)) hw
  obtain ⟨hy1, hy2⟩ := clamp_bounds height
    (ratTrunc (((center.y : ℚ) - ((((height : ℚ) * spread) / ((2 : ℕ) : ℚ)) * (((2 : ℕ) : ℚ) - 1)) / 2 +
        (j : ℚ) * (((height : ℚ) * spread) / ((2 : ℕ) : ℚ))) ) +
      ratTrunc ((rand (2 * (i * 2 + j) + 1) - 1/2) * (((height : ℚ) * spread) / ((2 : ℕ) : ℚ)) * jitter)) hh
  exact ⟨hx1, hx2, hy1, hy2⟩

/-- C5: generate_cursors (sample.py lines 51-92) always returns exactly
NUM_CURSORS = 4 cursor positions, laid out as the 2 x 2 grid centered on the
given center with cell size (width*spread/2, height*spread/2) plus jitter, and
every returned position is clamped to 0 ≤ x ≤ width-1 and 0 ≤ y ≤ height-1,
for every center, every spread, every jitter and random stream, and all
positive width and height. -/
theorem claim_C5 :
    ∀ (center : Cursor) (spread : ℚ) (width height : ℤ) (jitter : ℚ) (rand : ℕ → ℚ),
      0 < width → 0 < height →
      (generate_cursors center spread width height jitter rand).length = NUM_CURSORS ∧
      (∀ c ∈ generate_cursors center spread width height jitter rand,
        0 ≤ c.x ∧ c.x ≤ width - 1 ∧ 0 ≤ c.y ∧ c.y ≤ height - 1) ∧
      generate_cursors center spread width height jitter rand =
        [specGridCursor center spread width height jitter rand 0 0,
         specGridCursor center spread width height jitter rand 0 1,
         specGridCursor center spread width height jitter rand 1 0,
         specGridCursor center spread width height jitter rand 1 1] := by
  intro center spread width height jitter rand hw hh
  have heq := generate_cursors_eq center spread width height jitter rand
  refine ⟨by rw [heq]; norm_num [NUM_CURSORS], ?_, heq⟩
  intro c hc
  rw [heq] at hc
  rcases List.mem_cons.1 hc with h | hc
  · rw [h]; exact specGridCursor_bounds center spread width height jitter rand 0 0 hw hh
  rcases List.mem_cons.1 hc with h | hc
  · rw [h]; exact specGridCursor_bounds center spread width height jitter rand 0 1 hw hh
  rcases List.mem_cons.1 hc with h | hc
  · rw [h]; exact specGridCursor_bounds center spread width height jitter rand 1 0 hw hh
  rcases List.mem_cons.1 hc with h | hc
  · rw [h]; exact specGridCursor_bounds center spread width height jitter rand 1 1 hw hh
  simp at hc

/-- Witness for C5 on a 100 x 100 image with the constant random stream. -/
theorem claim_C5_witness :
    (0 : ℤ) < 100 ∧
    (generate_cursors { x := 50, y := 50 } 1 100 100 (1/100) (fun _ => 1/2)).length =
      NUM_CURSORS ∧
    generate_cursors { x := 50, y := 50 } 1 100 100 (1/100) (fun _ => 1/2) =
      [specGridCursor { x := 50, y := 50 } 1 100 100 (1/100) (fun _ => 1/2) 0 0,
       specGridCursor { x := 50, y := 50 } 1 100 100 (1/100) (fun _ => 1/2) 0 1,
       specGridCursor { x := 50, y := 50 } 1 100 100 (1/100) (fun _ => 1/2) 1 0,
       specGridCursor { x := 50, y := 50 } 1 100 100 (1/100) (fun _ => 1/2) 1 1] := by
  have h := claim_C5 { x := 50, y := 50 } 1 100 100 (1/100) (fun _ => 1/2)
    (by norm_num) (by norm_num)
  exact ⟨by norm_num, h.1, h.2.2⟩

/-! ## Theorems: the inner sampling loop (claims C1-C4) -/

/-- Folding the argmax step over a list: the accumulator either still holds
the initial sentinel count 0 or an element of l0 with its true score; the
best score never decreases; and every processed element's score is bounded by
the final best score. -/
theorem mcFold_spec (f : ℤ → ℕ) :
    ∀ (l l0 : List ℤ) (acc : ℤ × ℕ),
      (∀ v ∈ l, v ∈ l0) →
      (acc.2 = 0 ∨ (f acc.1 = acc.2 ∧ acc.1 ∈ l0)) →
      ((l.foldl (fun a v => if a.2 < f v then (v, f v) else a) acc).2 = 0 ∨
        (f (l.foldl (fun a v => if a.2 < f v then (v, f v) else a) acc).1 =
          (l.foldl (fun a v => if a.2 < f v then (v, f v) else a) acc).2 ∧
         (l.foldl (fun a v => if a.2 < f v then (v, f v) else a) acc).1 ∈ l0)) ∧
      acc.2 ≤ (l.foldl (fun a v => if a.2 < f v then (v, f v) else a) acc).2 ∧
      (∀ v ∈ l, f v ≤ (l.foldl (fun a v => if a.2 < f v then (v, f v) else a) acc).2) := by
  intro l
  induction l with
  | nil =>
    intro l0 acc hsub hP
    exact ⟨hP, le_refl _, by simp⟩
  | cons v t ih =>
    intro l0 acc hsub hP
    simp only [List.foldl_cons]
    by_cases hlt : acc.2 < f v
    · rw [if_pos hlt]
      obtain ⟨hP2, hmono, hall⟩ := ih l0 (v, f v)
        (fun x hx => hsub x (List.mem_cons_of_mem v hx))
        (Or.inr ⟨rfl, hsub v (List.mem_cons_self v t)⟩)
      refine ⟨hP2, le_trans (le_of_lt hlt) hmono, ?_⟩
      intro x hx
      rcases List.mem_cons.1 hx with h | h
      · rw [h]; exact hmono
      · exact hall x h
    · rw [if_neg hlt]
      obtain ⟨hP2, hmono, hall⟩ := ih l0 acc
        (fun x hx => hsub x (List.mem_cons_of_mem v hx)) hP
      refine ⟨hP2, hmono, ?_⟩
      intro x hx
      rcases List.mem_cons.1 hx with h | h
      · rw [h]; exact le_trans (le_of_not_lt hlt) hmono
      · exact hall x h

/-- Specification of mostCommon on a nonempty vote list: it returns an
actually occurring label together with its exact count, and that count is
maximal over all labels. -/
theorem mostCommon_spec (votes : List ℤ) (hne : votes ≠ []) :
    (mostCommon votes).1 ∈ votes ∧
    votes.count (mostCommon votes).1 = (mostCommon votes).2 ∧
    ∀ x : ℤ, votes.count x ≤ (mostCommon votes).2 := by
  obtain ⟨hP, hmono, hall⟩ :=
    mcFold_spec (fun v => votes.count v) votes votes (0, 0) (fun v hv => hv) (Or.inl rfl)
  have hpos : 1 ≤ (mostCommon votes).2 := by
    obtain ⟨v0, hv0⟩ := List.exists_mem_of_ne_nil votes hne
    have hc : 0 < votes.count v0 := List.count_pos_iff.2 hv0
    exact le_trans hc (hall v0 hv0)
  have hPm : (mostCommon votes).2 = 0 ∨
      (votes.count (mostCommon votes).1 = (mostCommon votes).2 ∧ (mostCommon votes).1 ∈ votes) := hP
  rcases hPm with h0 | ⟨hcount, hmem⟩
  · omega
  · refine ⟨hmem, hcount, ?_⟩
    intro x
    by_cases hx : x ∈ votes
    · exact hall x hx
    · rw [List.count_eq_zero.2 hx]
      exact Nat.zero_le _

/-- The inner sampling loop does not touch the identified-location list, the
overlap log, the spread log, the iteration counter or the base image. -/
theorem innerLoop_preserves (width height : ℤ) (jitter : ℚ) :
    ∀ (ps : List Pass) (st : SearchState),
      ((innerLoop width height jitter ps st).state).identified = st.identified ∧
      ((innerLoop width height jitter ps st).state).overlaps = st.overlaps ∧
      ((innerLoop width height jitter ps st).state).spreadLog = st.spreadLog ∧
      ((innerLoop width height jitter ps st).state).iteration = st.iteration ∧
      ((innerLoop width height jitter ps st).state).image = st.image := by
  intro ps
  induction ps with
  | nil => intro st; simp [innerLoop, InnerOutcome.state]
  | cons p rest ih =>
    intro st
    simp only [innerLoop]
    cases hr : p.response with
    | none =>
      cases hch : st.centerHistory with
      | nil => simp [InnerOutcome.state]
      | cons c cs =>
        cases hsh : st.spreadHistory with
        | nil => simp [InnerOutcome.state]
        | cons s ss => simpa using ih _
    | some v =>
      by_cases hc : CONSENSUS_THRESHOLD ≤ (mostCommon (st.votes ++ [v])).2
      · simp [hc, InnerOutcome.state]
      · simpa [hc] using ih _

/-- On consensus, the inner loop returns the most-common label of the final
vote list; that label occurs among the votes, reached the consensus
threshold, and has maximal count. -/
theorem innerLoop_consensus (width height : ℤ) (jitter : ℚ) :
    ∀ (ps : List Pass) (st st2 : SearchState) (cs : List Cursor) (lb : ℤ),
      innerLoop width height jitter ps st = .consensus st2 cs lb →
      lb = (mostCommon st2.votes).1 ∧ lb ∈ st2.votes ∧
      CONSENSUS_THRESHOLD ≤ st2.votes.count lb ∧
      ∀ x : ℤ, st2.votes.count x ≤ st2.votes.count lb := by
  intro ps
  induction ps with
  | nil => intro st st2 cs lb h; simp [innerLoop] at h
  | cons p rest ih =>
    intro st st2 cs lb h
    simp only [innerLoop] at h
    cases hr : p.response with
    | none =>
      simp only [hr] at h
      cases hch : st.centerHistory with
      | nil => simp [hch] at h
      | cons c cshist =>
        cases hsh : st.spreadHistory with
        | nil => simp [hch, hsh] at h
        | cons s sshist =>
          simp only [hch, hsh] at h
          exact ih _ st2 cs lb h
    | some v =>
      simp only [hr] at h
      by_cases hc : CONSENSUS_THRESHOLD ≤ (mostCommon (st.votes ++ [v])).2
      · rw [if_pos hc] at h
        have hne : st.votes ++ [v] ≠ [] := by simp
        obtain ⟨hmem, hcount, hmax⟩ := mostCommon_spec (st.votes ++ [v]) hne
        injection h with h1 h2 h3
        subst h1
        subst h2
        subst h3
        have h3c : CONSENSUS_THRESHOLD ≤
            (st.votes ++ [v]).count (mostCommon (st.votes ++ [v])).1 := by
          rw [hcount]; exact hc
        have h4c : ∀ x : ℤ, (st.votes ++ [v]).count x ≤
            (st.votes ++ [v]).count (mostCommon (st.votes ++ [v])).1 := by
          intro x; rw [hcount]; exact hmax x
        exact ⟨rfl, hmem, h3c, h4c⟩
      · rw [if_neg hc] at h
        exact ih _ st2 cs lb h

/-- When no pass has a None response, the inner loop leaves the center, the
spread and the history stacks untouched. -/
theorem innerLoop_no_none (width height : ℤ) (jitter : ℚ) :
    ∀ (ps : List Pass) (st : SearchState),
      ps.countP (fun p => p.response.isNone) = 0 →
      ((innerLoop width height jitter ps st).state).center = st.center ∧
      ((innerLoop width height jitter ps st).state).spread = st.spread ∧
      ((innerLoop width height jitter ps st).state).centerHistory = st.centerHistory ∧
      ((innerLoop width height jitter ps st).state).spreadHistory = st.spreadHistory := by
  intro ps
  induction ps with
  | nil => intro st _; simp [innerLoop, InnerOutcome.state]
  | cons p rest ih =>
    intro st hcount
    rw [List.countP_cons] at hcount
    simp only [innerLoop]
    cases hr : p.response with
    | none => rw [hr] at hcount; simp at hcount
    | some v =>
      have hrest : rest.countP (fun p => p.response.isNone) = 0 := by
        rw [hr] at hcount
        simpa using hcount
      by_cases hc : CONSENSUS_THRESHOLD ≤ (mostCommon (st.votes ++ [v])).2
      · simp [hc, InnerOutcome.state]
      · simpa [hc] using ih _ hrest

/-- When at most one pass has a None response and the history stacks have the
current center and spread pushed on top (as the outer loop does at the start
of every iteration), the inner loop preserves the center and the spread. -/
theorem innerLoop_center_spread (width height : ℤ) (jitter : ℚ) :
    ∀ (ps : List Pass) (st : SearchState),
      ps.countP (fun p => p.response.isNone) ≤ 1 →
      st.centerHistory.head? = some st.center →
      st.spreadHistory.head? = some st.spread →
      ((innerLoop width height jitter ps st).state).center = st.center ∧
      ((innerLoop width height jitter ps st).state).spread = st.spread := by
  intro ps
  induction ps with
  | nil => intro st _ _ _; simp [innerLoop, InnerOutcome.state]
  | cons p rest ih =>
    intro st hcount hch hsh
    rw [List.countP_cons] at hcount
    simp only [innerLoop]
    cases hr : p.response with
    | none =>
      have hrest : rest.countP (fun p => p.response.isNone) = 0 := by
        rw [hr] at hcount
        simp only [Option.isNone_none, eq_self_iff_true, if_true] at hcount
        omega
      cases hch2 : st.centerHistory with
      | nil => rw [hch2] at hch; simp at hch
      | cons c cshist =>
        cases hsh2 : st.spreadHistory with
        | nil => rw [hsh2] at hsh; simp at hsh
        | cons s sshist =>
          rw [hch2] at hch
          rw [hsh2] at hsh
          simp only [List.head?_cons, Option.some.injEq] at hch hsh
          have hfields := innerLoop_no_none width height jitter rest
            { st with center := c, spread := s, centerHistory := cshist, spreadHistory := sshist,
                      maxOverlap := max p.overlap st.maxOverlap,
                      trace := (st.trace ++
                        [.estimate (generate_cursors st.center st.spread width height jitter p.rand),
                         .render, .query none]) ++
                        [.restore st.center c st.spread s] } hrest
          constructor
          · rw [hfields.1]
            exact hch
          · rw [hfields.2.1]
            exact hsh
    | some v =>
      have hrest : rest.countP (fun p => p.response.isNone) ≤ 1 := by
        rw [hr] at hcount
        simpa using hcount
      by_cases hc : CONSENSUS_THRESHOLD ≤ (mostCommon (st.votes ++ [v])).2
      · simp [hc, InnerOutcome.state]
      · have hih := ih
          { st with votes := st.votes ++ [v],
                    maxOverlap := max p.overlap st.maxOverlap,
                    trace := (st.trace ++
                      [.estimate (generate_cursors st.center st.spread width height jitter p.rand),
                       .render, .query (some v)]) ++ [.vote v false] }
          hrest hch hsh
        simpa [hc] using hih

/-- Appending a block that starts with an estimate event preserves the
adjacency chain. -/
theorem chain_append_block (t block : List SampleEvent)
    (ht : List.Chain' adjOK t) (hb : List.Chain' adjOK block)
    (hhead : ∃ cs, block.head? = some (.estimate cs)) :
    List.Chain' adjOK (t ++ block) := by
  rw [List.chain'_append]
  refine ⟨ht, hb, ?_⟩
  intro x hx y hy
  obtain ⟨cs, hcs⟩ := hhead
  rw [hcs] at hy
  have hy2 : SampleEvent.estimate cs = y := by simpa using hy
  rw [← hy2]
  trivial

/-- Every event the inner loop appends to the trace keeps the adjacency
relation, and on consensus the trace ends with the consensus-reaching vote. -/
theorem innerLoop_chain (width height : ℤ) (jitter : ℚ) :
    ∀ (ps : List Pass) (st : SearchState),
      List.Chain' adjOK st.trace →
      List.Chain' adjOK ((innerLoop width height jitter ps st).state).trace ∧
      (∀ st2 cs lb, innerLoop width height jitter ps st = .consensus st2 cs lb →
        ∃ l : ℤ, st2.trace.getLast? = some (.vote l true)) := by
  intro ps
  induction ps with
  | nil =>
    intro st hch
    refine ⟨by simpa [innerLoop, InnerOutcome.state] using hch, ?_⟩
    intro st2 cs lb h
    simp [innerLoop] at h
  | cons p rest ih =>
    intro st hch
    simp only [innerLoop]
    cases hr : p.response with
    | none =>
      cases hch2 : st.centerHistory with
      | nil =>
        refine ⟨?_, by intro st2 cs lb h; simp at h⟩
        simp only [InnerOutcome.state]
        refine chain_append_block _ _ hch ?_ ?_
        · simp [List.chain'_cons, adjOK]
        · exact ⟨_, rfl⟩
      | cons c cshist =>
        cases hsh2 : st.spreadHistory with
        | nil =>
          refine ⟨?_, by intro st2 cs lb h; simp at h⟩
          simp only [InnerOutcome.state]
          refine chain_append_block _ _ hch ?_ ?_
          · simp [List.chain'_cons, adjOK]
          · exact ⟨_, rfl⟩
        | cons s sshist =>
          dsimp only
          refine ih _ ?_
          rw [List.append_assoc]
          refine chain_append_block _ _ hch ?_ ?_
          · simp [List.chain'_cons, adjOK]
          · exact ⟨_, rfl⟩
    | some v =>
      dsimp only
      by_cases hc : CONSENSUS_THRESHOLD ≤ (mostCommon (st.votes ++ [v])).2
      · rw [if_pos hc]
        constructor
        · simp only [InnerOutcome.state]
          rw [List.append_assoc]
          refine chain_append_block _ _ hch ?_ ?_
          · simp [List.chain'_cons, adjOK]
          · exact ⟨_, rfl⟩
        · intro st2 cs lb h
          injection h with h1 h2 h3
          subst h1
          refine ⟨v, ?_⟩
          show ((st.trace ++ _) ++ [SampleEvent.vote v true]).getLast? = _
          rw [List.getLast?_concat]
      · rw [if_neg hc]
        refine ih _ ?_
        rw [List.append_assoc]
        refine chain_append_block _ _ hch ?_ ?_
        · simp [List.chain'_cons, adjOK]
        · exact ⟨_, rfl⟩


/-- Every event in an estimate-render-query block satisfies the per-event
soundness predicate (none of them is a refine event). -/
theorem mem_block3_emitOK (cs : List Cursor) (r : Option ℤ) :
    ∀ e ∈ [SampleEvent.estimate cs, SampleEvent.render, SampleEvent.query r], emitOK e := by
  intro e he
  rcases List.mem_cons.1 he with h | he
  · rw [h]; trivial
  rcases List.mem_cons.1 he with h | he
  · rw [h]; trivial
  rcases List.mem_cons.1 he with h | he
  · rw [h]; trivial
  simp at he

/-- Every event in an estimate-render-query block followed by one further
sound event satisfies the per-event soundness predicate. -/
theorem mem_block4_emitOK (cs : List Cursor) (r : Option ℤ) (last : SampleEvent)
    (hlast : emitOK last) :
    ∀ e ∈ [SampleEvent.estimate cs, SampleEvent.render, SampleEvent.query r] ++ [last],
      emitOK e := by
  intro e he
  rcases List.mem_append.1 he with h | h
  · exact mem_block3_emitOK cs r e h
  · rcases List.mem_cons.1 h with h2 | h2
    · rw [h2]; exact hlast
    · simp at h2

/-- Every event in the trace after running the inner loop either was already
there or satisfies the per-event soundness predicate (the inner loop emits no
refine events, so its new events satisfy it trivially). -/
theorem innerLoop_trace_mem (width height : ℤ) (jitter : ℚ) :
    ∀ (ps : List Pass) (st : SearchState) (e : SampleEvent),
      e ∈ ((innerLoop width height jitter ps st).state).trace →
      e ∈ st.trace ∨ emitOK e := by
  intro ps
  induction ps with
  | nil => intro st e he; exact Or.inl (by simpa [innerLoop, InnerOutcome.state] using he)
  | cons p rest ih =>
    intro st e he
    simp only [innerLoop] at he
    cases hr : p.response with
    | none =>
      rw [hr] at he
      cases hch2 : st.centerHistory with
      | nil =>
        rw [hch2] at he
        dsimp only [InnerOutcome.state] at he
        rcases List.mem_append.1 he with h | h
        · exact Or.inl h
        · exact Or.inr (mem_block3_emitOK _ _ e h)
      | cons c cshist =>
        cases hsh2 : st.spreadHistory with
        | nil =>
          rw [hch2, hsh2] at he
          dsimp only [InnerOutcome.state] at he
          rcases List.mem_append.1 he with h | h
          · exact Or.inl h
          · exact Or.inr (mem_block3_emitOK _ _ e h)
        | cons s sshist =>
          rw [hch2, hsh2] at he
          dsimp only at he
          rcases ih _ e he with h | h
          · rw [List.append_assoc] at h
            rcases List.mem_append.1 h with h2 | h2
            · exact Or.inl h2
            · exact Or.inr (mem_block4_emitOK _ _ _ (by trivial) e h2)
          · exact Or.inr h
    | some v =>
      rw [hr] at he
      dsimp only at he
      by_cases hc : CONSENSUS_THRESHOLD ≤ (mostCommon (st.votes ++ [v])).2
      · rw [if_pos hc] at he
        dsimp only [InnerOutcome.state] at he
        rw [List.append_assoc] at he
        rcases List.mem_append.1 he with h | h
        · exact Or.inl h
        · exact Or.inr (mem_block4_emitOK _ _ _ (by trivial) e h)
      · rw [if_neg hc] at he
        rcases ih _ e he with h | h
        · rw [List.append_assoc] at h
          rcases List.mem_append.1 h with h2 | h2
          · exact Or.inl h2
          · exact Or.inr (mem_block4_emitOK _ _ _ (by trivial) e h2)
        · exact Or.inr h

/-! ## Theorems: the outer search loop (claims C1-C4) -/

/-- The Python truthiness condition of sample.py line 246, characterized. -/
theorem hitIterLimit_iff (maxIter : Option ℕ) (it : ℕ) :
    hitIterLimit maxIter it = true ↔ ∃ m, maxIter = some m ∧ 0 < m ∧ m < it := by
  cases maxIter with
  | none => simp [hitIterLimit]
  | some m => simp [hitIterLimit]

/-- Main induction for claim C2.  From a state whose logs satisfy the loop
invariants, the outer loop maintains: one identified location per completed
iteration, every non-final overlap within MAX_OVERLAP_RATIO, the overlap stop
only on a final overlap beyond the bound, the iteration-limit stop only when
MAX_ITERATIONS is set, nonzero, and exceeded, and at most MAX_ITERATIONS
completed iterations. -/
theorem outerLoop_c2_aux (width height : ℤ) (jitter : ℚ) (maxIter : Option ℕ) :
    ∀ (iters : List (List Pass)) (st : SearchState),
      st.identified.length = st.overlaps.length →
      (∀ o ∈ st.overlaps, o ≤ MAX_OVERLAP_RATIO) →
      st.iteration = st.overlaps.length + 1 →
      (∀ m, maxIter = some m → 0 < m → st.iteration ≤ m + 1) →
      (((outerLoop width height jitter maxIter iters st).state).identified.length =
        ((outerLoop width height jitter maxIter iters st).state).overlaps.length) ∧
      (∀ o ∈ ((outerLoop width height jitter maxIter iters st).state).overlaps.dropLast,
        o ≤ MAX_OVERLAP_RATIO) ∧
      ((outerLoop width height jitter maxIter iters st).isOverlapStop = true →
        ∃ o, ((outerLoop width height jitter maxIter iters st).state).overlaps.getLast? =
          some o ∧ MAX_OVERLAP_RATIO < o) ∧
      ((outerLoop width height jitter maxIter iters st).isIterLimit = true →
        ∃ m, maxIter = some m ∧ 0 < m ∧
          m < ((outerLoop width height jitter maxIter iters st).state).iteration) ∧
      (∀ m, maxIter = some m → 0 < m →
        ((outerLoop width height jitter maxIter iters st).state).overlaps.length ≤ m) := by
  intro iters
  induction iters with
  | nil =>
    intro st h1 h2 h3 h4
    simp only [outerLoop]
    by_cases hhit : hitIterLimit maxIter st.iteration = true
    · rw [if_pos hhit]
      obtain ⟨m, hm, hm0, hmlt⟩ := (hitIterLimit_iff maxIter st.iteration).1 hhit
      refine ⟨h1, ?_, by intro h; simp [Outcome.isOverlapStop] at h, ?_, ?_⟩
      · intro o ho
        exact h2 o ((List.dropLast_sublist _).subset ho)
      · intro _
        exact ⟨m, hm, hm0, hmlt⟩
      · intro m2 hm2 hm20
        have := h4 m2 hm2 hm20
        dsimp only [Outcome.state]
        omega
    · rw [if_neg hhit]
      refine ⟨h1, ?_, by intro h; simp [Outcome.isOverlapStop] at h,
        by intro h; simp [Outcome.isIterLimit] at h, ?_⟩
      · intro o ho
        exact h2 o ((List.dropLast_sublist _).subset ho)
      · intro m2 hm2 hm20
        have := h4 m2 hm2 hm20
        dsimp only [Outcome.state]
        omega
  | cons passes rest ih =>
    intro st h1 h2 h3 h4
    simp only [outerLoop]
    by_cases hhit : hitIterLimit maxIter st.iteration = true
    · rw [if_pos hhit]
      obtain ⟨m, hm, hm0, hmlt⟩ := (hitIterLimit_iff maxIter st.iteration).1 hhit
      refine ⟨h1, ?_, by intro h; simp [Outcome.isOverlapStop] at h, ?_, ?_⟩
      · intro o ho
        exact h2 o ((List.dropLast_sublist _).subset ho)
      · intro _
        exact ⟨m, hm, hm0, hmlt⟩
      · intro m2 hm2 hm20
        have := h4 m2 hm2 hm20
        dsimp only [Outcome.state]
        omega
    · rw [if_neg hhit]
      have hnolim : ∀ m, maxIter = some m → 0 < m → st.iteration ≤ m := by
        intro m hm hm0
        by_contra hgt
        exact hhit ((hitIterLimit_iff maxIter st.iteration).2 ⟨m, hm, hm0, by omega⟩)
      have hpres := innerLoop_preserves width height jitter passes
        { st with votes := [], maxOverlap := 0,
                  centerHistory := st.center :: st.centerHistory,
                  spreadHistory := st.spread :: st.spreadHistory }
      cases hinner : innerLoop width height jitter passes
          { st with votes := [], maxOverlap := 0,
                    centerHistory := st.center :: st.centerHistory,
                    spreadHistory := st.spread :: st.spreadHistory } with
      | outOfPasses st2 =>
        rw [hinner] at hpres
        dsimp only [InnerOutcome.state] at hpres
        obtain ⟨hid, hov, -, hit, -⟩ := hpres
        refine ⟨by dsimp only [Outcome.state]; rw [hid, hov]; exact h1, ?_,
          by intro h; simp [Outcome.isOverlapStop] at h,
          by intro h; simp [Outcome.isIterLimit] at h, ?_⟩
        · intro o ho
          dsimp only [Outcome.state] at ho
          rw [hov] at ho
          exact h2 o ((List.dropLast_sublist _).subset ho)
        · intro m2 hm2 hm20
          have := hnolim m2 hm2 hm20
          dsimp only [Outcome.state]
          rw [hov]
          omega
      | popEmpty st2 =>
        rw [hinner] at hpres
        dsimp only [InnerOutcome.state] at hpres
        obtain ⟨hid, hov, -, hit, -⟩ := hpres
        refine ⟨by dsimp only [Outcome.state]; rw [hid, hov]; exact h1, ?_,
          by intro h; simp [Outcome.isOverlapStop] at h,
          by intro h; simp [Outcome.isIterLimit] at h, ?_⟩
        · intro o ho
          dsimp only [Outcome.state] at ho
          rw [hov] at ho
          exact h2 o ((List.dropLast_sublist _).subset ho)
        · intro m2 hm2 hm20
          have := hnolim m2 hm2 hm20
          dsimp only [Outcome.state]
          rw [hov]
          omega
      | consensus st2 cursors label =>
        rw [hinner] at hpres
        dsimp only [InnerOutcome.state] at hpres
        obtain ⟨hid, hov, -, hit, -⟩ := hpres
        dsimp only
        cases hg : pyGet cursors (label - 1) with
        | none =>
          refine ⟨by dsimp only [Outcome.state]; rw [hid, hov]; exact h1, ?_,
            by intro h; simp [Outcome.isOverlapStop] at h,
            by intro h; simp [Outcome.isIterLimit] at h, ?_⟩
          · intro o ho
            dsimp only [Outcome.state] at ho
            rw [hov] at ho
            exact h2 o ((List.dropLast_sublist _).subset ho)
          · intro m2 hm2 hm20
            have := hnolim m2 hm2 hm20
            dsimp only [Outcome.state]
            rw [hov]
            omega
        | some loc =>
          dsimp only
          by_cases hob : MAX_OVERLAP_RATIO < st2.maxOverlap
          · rw [if_pos hob]
            refine ⟨?_, ?_, ?_, by intro h; simp [Outcome.isIterLimit] at h, ?_⟩
            · dsimp only [Outcome.state]
              simp only [List.length_append, List.length_cons, List.length_nil]
              rw [hid, hov]
              omega
            · dsimp only [Outcome.state]
              intro o ho
              rw [List.dropLast_concat, hov] at ho
              exact h2 o ho
            · intro _
              dsimp only [Outcome.state]
              exact ⟨st2.maxOverlap, List.getLast?_concat _, hob⟩
            · intro m2 hm2 hm20
              dsimp only [Outcome.state]
              have := hnolim m2 hm2 hm20
              simp only [List.length_append, List.length_cons, List.length_nil]
              rw [hov]
              omega
          · rw [if_neg hob]
            refine ih _ ?_ ?_ ?_ ?_
            · dsimp only
              simp only [List.length_append, List.length_cons, List.length_nil]
              rw [hid, hov]
              omega
            · dsimp only
              intro o ho
              rcases List.mem_append.1 ho with h | h
              · rw [hov] at h
                exact h2 o h
              · have : o = st2.maxOverlap := by simpa using h
                rw [this]
                exact le_of_not_lt hob
            · dsimp only
              simp only [List.length_append, List.length_cons, List.length_nil]
              rw [hit, hov]
              omega
            · intro m2 hm2 hm20
              dsimp only
              have := hnolim m2 hm2 hm20
              rw [hit]
              omega

/-- The outer loop never changes the base image: only copies of it are drawn
on (image.copy() at sample.py lines 280 and 322). -/
theorem outerLoop_image (width height : ℤ) (jitter : ℚ) (maxIter : Option ℕ) :
    ∀ (iters : List (List Pass)) (st : SearchState),
      ((outerLoop width height jitter maxIter iters st).state).image = st.image := by
  intro iters
  induction iters with
  | nil => intro st; simp only [outerLoop]; split <;> rfl
  | cons passes rest ih =>
    intro st
    simp only [outerLoop]
    split
    · rfl
    · have hpres := innerLoop_preserves width height jitter passes
        { st with votes := [], maxOverlap := 0,
                  centerHistory := st.center :: st.centerHistory,
                  spreadHistory := st.spread :: st.spreadHistory }
      cases hinner : innerLoop width height jitter passes
          { st with votes := [], maxOverlap := 0,
                    centerHistory := st.center :: st.centerHistory,
                    spreadHistory := st.spread :: st.spreadHistory } with
      | outOfPasses st2 =>
        rw [hinner] at hpres
        dsimp only [InnerOutcome.state] at hpres
        dsimp only
        exact hpres.2.2.2.2
      | popEmpty st2 =>
        rw [hinner] at hpres
        dsimp only [InnerOutcome.state] at hpres
        dsimp only
        exact hpres.2.2.2.2
      | consensus st2 cursors label =>
        rw [hinner] at hpres
        dsimp only [InnerOutcome.state] at hpres
        dsimp only
        cases hg : pyGet cursors (label - 1) with
        | none => exact hpres.2.2.2.2
        | some loc =>
          dsimp only
          split
          · exact hpres.2.2.2.2
          · rw [ih]
            exact hpres.2.2.2.2

/-- Running the outer loop preserves the adjacency chain of the trace: each
iteration appends estimate-render-query-vote/restore blocks through the
inner loop and one refine event directly after the consensus-reaching
vote. -/
theorem outerLoop_chain (width height : ℤ) (jitter : ℚ) (maxIter : Option ℕ) :
    ∀ (iters : List (List Pass)) (st : SearchState),
      List.Chain' adjOK st.trace →
      List.Chain' adjOK ((outerLoop width height jitter maxIter iters st).state).trace := by
  intro iters
  induction iters with
  | nil => intro st hch; simp only [outerLoop]; split <;> exact hch
  | cons passes rest ih =>
    intro st hch
    simp only [outerLoop]
    split
    · exact hch
    · have hchain := innerLoop_chain width height jitter passes
        { st with votes := [], maxOverlap := 0,
                  centerHistory := st.center :: st.centerHistory,
                  spreadHistory := st.spread :: st.spreadHistory } hch
      cases hinner : innerLoop width height jitter passes
          { st with votes := [], maxOverlap := 0,
                    centerHistory := st.center :: st.centerHistory,
                    spreadHistory := st.spread :: st.spreadHistory } with
      | outOfPasses st2 =>
        rw [hinner] at hchain
        dsimp only [InnerOutcome.state] at hchain
        dsimp only
        exact hchain.1
      | popEmpty st2 =>
        rw [hinner] at hchain
        dsimp only [InnerOutcome.state] at hchain
        dsimp only
        exact hchain.1
      | consensus st2 cursors label =>
        have hlast := hchain.2 st2 cursors label hinner
        rw [hinner] at hchain
        dsimp only [InnerOutcome.state] at hchain
        dsimp only
        cases hg : pyGet cursors (label - 1) with
        | none => exact hchain.1
        | some loc =>
          dsimp only
          have hc3 : List.Chain' adjOK (st2.trace ++
              [SampleEvent.refine st2.votes cursors label st2.center loc st2.spread
                (st2.spread * SPREAD_REDUCTION_FACTOR)]) := by
            rw [List.chain'_append]
            refine ⟨hchain.1, List.chain'_singleton _, ?_⟩
            intro x hx y hy
            obtain ⟨l, hl⟩ := hlast
            rw [hl] at hx
            have hx2 : SampleEvent.vote l true = x := by simpa using hx
            have hy2 : SampleEvent.refine st2.votes cursors label st2.center loc st2.spread
                (st2.spread * SPREAD_REDUCTION_FACTOR) = y := by simpa using hy
            rw [← hx2, ← hy2]
            exact ⟨l, rfl⟩
          split
          · exact hc3
          · exact ih _ hc3

/-- Every event in the trace of a finished run satisfies the per-event
soundness predicate, provided the starting trace did: in particular every
refine event uses the most-common consensus label and cursors[label - 1]. -/
theorem outerLoop_trace_emitOK (width height : ℤ) (jitter : ℚ) (maxIter : Option ℕ) :
    ∀ (iters : List (List Pass)) (st : SearchState),
      (∀ e ∈ st.trace, emitOK e) →
      ∀ e ∈ ((outerLoop width height jitter maxIter iters st).state).trace, emitOK e := by
  intro iters
  induction iters with
  | nil => intro st hall; simp only [outerLoop]; split <;> exact hall
  | cons passes rest ih =>
    intro st hall
    simp only [outerLoop]
    split
    · exact hall
    · cases hinner : innerLoop width height jitter passes
          { st with votes := [], maxOverlap := 0,
                    centerHistory := st.center :: st.centerHistory,
                    spreadHistory := st.spread :: st.spreadHistory } with
      | outOfPasses st2 =>
        dsimp only
        intro e he
        have hm := innerLoop_trace_mem width height jitter passes
          { st with votes := [], maxOverlap := 0,
                    centerHistory := st.center :: st.centerHistory,
                    spreadHistory := st.spread :: st.spreadHistory } e
          (by rw [hinner]; exact he)
        rcases hm with h | h
        · exact hall e h
        · exact h
      | popEmpty st2 =>
        dsimp only
        intro e he
        have hm := innerLoop_trace_mem width height jitter passes
          { st with votes := [], maxOverlap := 0,
                    centerHistory := st.center :: st.centerHistory,
                    spreadHistory := st.spread :: st.spreadHistory } e
          (by rw [hinner]; exact he)
        rcases hm with h | h
        · exact hall e h
        · exact h
      | consensus st2 cursors label =>
        have hcons := innerLoop_consensus width height jitter passes _ st2 cursors label hinner
        dsimp only
        cases hg : pyGet cursors (label - 1) with
        | none =>
          intro e he
          have hm := innerLoop_trace_mem width height jitter passes
            { st with votes := [], maxOverlap := 0,
                      centerHistory := st.center :: st.centerHistory,
                      spreadHistory := st.spread :: st.spreadHistory } e
            (by rw [hinner]; exact he)
          rcases hm with h | h
          · exact hall e h
          · exact h
        | some loc =>
          dsimp only
          have hall3 : ∀ e ∈ st2.trace ++
              [SampleEvent.refine st2.votes cursors label st2.center loc st2.spread
                (st2.spread * SPREAD_REDUCTION_FACTOR)], emitOK e := by
            intro e he
            rcases List.mem_append.1 he with h | h
            · have hm := innerLoop_trace_mem width height jitter passes
                { st with votes := [], maxOverlap := 0,
                          centerHistory := st.center :: st.centerHistory,
                          spreadHistory := st.spread :: st.spreadHistory } e
                (by rw [hinner]; exact h)
              rcases hm with h2 | h2
              · exact hall e h2
              · exact h2
            · have h2 : e = SampleEvent.refine st2.votes cursors label st2.center loc st2.spread
                  (st2.spread * SPREAD_REDUCTION_FACTOR) := by simpa using h
              rw [h2]
              exact ⟨hg, rfl, hcons.2.1, hcons.2.2.1, hcons.2.2.2, hcons.1⟩
          split
          · exact hall3
          · exact ih _ hall3

/-- Main induction for claim C3.  When every iteration's oracle input holds at
most one None response, the spread equals (1/2)^(completed iterations), the
spread log is exactly the sequence (1/2)^1, (1/2)^2, ..., the overlap log has
one entry per completed iteration, and the center is the last identified
location (or the initial center while nothing was identified). -/
theorem outerLoop_c3_aux (width height : ℤ) (jitter : ℚ) (maxIter : Option ℕ) :
    ∀ (iters : List (List Pass)) (st : SearchState),
      (∀ it ∈ iters, it.countP (fun p => p.response.isNone) ≤ 1) →
      st.spread = ((1 : ℚ)/2) ^ st.spreadLog.length →
      st.spreadLog = (List.range st.spreadLog.length).map (fun n => ((1 : ℚ)/2) ^ (n + 1)) →
      st.overlaps.length = st.spreadLog.length →
      (st.identified = [] ∨ st.identified.getLast? = some st.center) →
      (((outerLoop width height jitter maxIter iters st).state).spread =
        ((1 : ℚ)/2) ^ ((outerLoop width height jitter maxIter iters st).state).spreadLog.length) ∧
      (((outerLoop width height jitter maxIter iters st).state).spreadLog =
        (List.range ((outerLoop width height jitter maxIter iters st).state).spreadLog.length).map
          (fun n => ((1 : ℚ)/2) ^ (n + 1))) ∧
      (((outerLoop width height jitter maxIter iters st).state).overlaps.length =
        ((outerLoop width height jitter maxIter iters st).state).spreadLog.length) ∧
      (((outerLoop width height jitter maxIter iters st).state).identified = [] ∨
        ((outerLoop width height jitter maxIter iters st).state).identified.getLast? =
          some ((outerLoop width height jitter maxIter iters st).state).center) := by
  intro iters
  induction iters with
  | nil =>
    intro st hnone h1 h2 h3 h4
    simp only [outerLoop]
    split <;> exact ⟨h1, h2, h3, h4⟩
  | cons passes rest ih =>
    intro st hnone h1 h2 h3 h4
    have hnhead : passes.countP (fun p => p.response.isNone) ≤ 1 :=
      hnone passes (List.mem_cons_self _ _)
    have hntail : ∀ it ∈ rest, it.countP (fun p => p.response.isNone) ≤ 1 :=
      fun it hit => hnone it (List.mem_cons_of_mem _ hit)
    simp only [outerLoop]
    split
    · exact ⟨h1, h2, h3, h4⟩
    · have hpres := innerLoop_preserves width height jitter passes
        { st with votes := [], maxOverlap := 0,
                  centerHistory := st.center :: st.centerHistory,
                  spreadHistory := st.spread :: st.spreadHistory }
      have hcsp := innerLoop_center_spread width height jitter passes
        { st with votes := [], maxOverlap := 0,
                  centerHistory := st.center :: st.centerHistory,
                  spreadHistory := st.spread :: st.spreadHistory } hnhead rfl rfl
      cases hinner : innerLoop width height jitter passes
          { st with votes := [], maxOverlap := 0,
                    centerHistory := st.center :: st.centerHistory,
                    spreadHistory := st.spread :: st.spreadHistory } with
      | outOfPasses st2 =>
        rw [hinner] at hpres hcsp
        dsimp only [InnerOutcome.state] at hpres hcsp
        obtain ⟨hid, hov, hlog, -, -⟩ := hpres
        dsimp only [Outcome.state]
        refine ⟨?_, ?_, ?_, ?_⟩
        · rw [hcsp.2, hlog]; exact h1
        · rw [hlog]; exact h2
        · rw [hov, hlog]; exact h3
        · rw [hid, hcsp.1]; exact h4
      | popEmpty st2 =>
        rw [hinner] at hpres hcsp
        dsimp only [InnerOutcome.state] at hpres hcsp
        obtain ⟨hid, hov, hlog, -, -⟩ := hpres
        dsimp only [Outcome.state]
        refine ⟨?_, ?_, ?_, ?_⟩
        · rw [hcsp.2, hlog]; exact h1
        · rw [hlog]; exact h2
        · rw [hov, hlog]; exact h3
        · rw [hid, hcsp.1]; exact h4
      | consensus st2 cursors label =>
        rw [hinner] at hpres hcsp
        dsimp only [InnerOutcome.state] at hpres hcsp
        obtain ⟨hid, hov, hlog, -, -⟩ := hpres
        dsimp only
        cases hg : pyGet cursors (label - 1) with
        | none =>
          dsimp only [Outcome.state]
          refine ⟨?_, ?_, ?_, ?_⟩
          · rw [hcsp.2, hlog]; exact h1
          · rw [hlog]; exact h2
          · rw [hov, hlog]; exact h3
          · rw [hid, hcsp.1]; exact h4
        | some loc =>
          dsimp only
          have hsp1 : st2.spread * SPREAD_REDUCTION_FACTOR =
              ((1 : ℚ)/2) ^ (st.spreadLog.length + 1) := by
            rw [hcsp.2, h1, SPREAD_REDUCTION_FACTOR, pow_succ]
          have hlog1 : st2.spreadLog ++ [st2.spread * SPREAD_REDUCTION_FACTOR] =
              (List.range (st.spreadLog.length + 1)).map (fun n => ((1 : ℚ)/2) ^ (n + 1)) := by
            conv_lhs => rw [hlog, h2]
            rw [hsp1, List.range_succ, List.map_append]
            simp
          have hlen1 : (st2.spreadLog ++ [st2.spread * SPREAD_REDUCTION_FACTOR]).length =
              st.spreadLog.length + 1 := by
            rw [hlog]
            simp
          split
          · refine ⟨?_, ?_, ?_, ?_⟩
            · dsimp only [Outcome.state]
              rw [hlen1, hsp1]
            · dsimp only [Outcome.state]
              rw [hlen1, hlog1]
            · dsimp only [Outcome.state]
              rw [hlen1]
              simp only [List.length_append, List.length_cons, List.length_nil]
              rw [hov]
              omega
            · dsimp only [Outcome.state]
              right
              exact List.getLast?_concat _
          · refine ih _ hntail ?_ ?_ ?_ ?_
            · dsimp only
              rw [hlen1, hsp1]
            · dsimp only
              rw [hlen1, hlog1]
            · dsimp only
              rw [hlen1]
              simp only [List.length_append, List.length_cons, List.length_nil]
              rw [hov]
              omega
            · dsimp only
              right
              exact List.getLast?_concat _

/-- Concrete evaluation: the grid around (50, 50) with spread 1 on a 100x100
image. -/
theorem gc_eval1 : generate_cursors { x := 50, y := 50 } 1 100 100 (1/100) (fun _ => 1/2) =
    [{ x := 25, y := 25 }, { x := 25, y := 75 }, { x := 75, y := 25 }, { x := 75, y := 75 }] := by
  rw [generate_cursors_eq]
  norm_num [specGridCursor, ratTrunc]

/-- Concrete evaluation: the grid around (25, 25) with spread 1/2. -/
theorem gc_eval2 : generate_cursors { x := 25, y := 25 } (1/2) 100 100 (1/100) (fun _ => 1/2) =
    [{ x := 12, y := 12 }, { x := 12, y := 37 }, { x := 37, y := 12 }, { x := 37, y := 37 }] := by
  rw [generate_cursors_eq]
  norm_num [specGridCursor, ratTrunc]

/-- C1: in every pass of the inner sampling loop of main (sample.py lines
274-312), votes are aggregated by counting cursor labels: the loop exits with
consensus only when some label has been voted at least CONSENSUS_THRESHOLD = 2
times, the returned label is the most common one among the votes cast so far
(Counter(votes).most_common), and the identified location recorded by the
refinement step is cursors[most_common_label - 1] (Python indexing), taken
from the cursors of the final pass. -/
theorem claim_C1 :
    (∀ (width height : ℤ) (jitter : ℚ) (ps : List Pass) (st st2 : SearchState)
       (cursors : List Cursor) (label : ℤ),
      innerLoop width height jitter ps st = .consensus st2 cursors label →
      label = (mostCommon st2.votes).1 ∧ label ∈ st2.votes ∧
      CONSENSUS_THRESHOLD ≤ st2.votes.count label ∧
      ∀ x : ℤ, st2.votes.count x ≤ st2.votes.count label) ∧
    (∀ (width height : ℤ) (jitter : ℚ) (maxIter : Option ℕ) (iters : List (List Pass))
       (img : ℤ) (v : List ℤ) (cs : List Cursor) (lb : ℤ) (oc nc : Cursor) (os ns : ℚ),
      SampleEvent.refine v cs lb oc nc os ns ∈
        ((outerLoop width height jitter maxIter iters (initState width height img)).state).trace →
      pyGet cs (lb - 1) = some nc ∧ CONSENSUS_THRESHOLD ≤ v.count lb ∧
      (∀ x : ℤ, v.count x ≤ v.count lb) ∧ lb = (mostCommon v).1) := by
  constructor
  · exact fun width height jitter ps st st2 cursors label h =>
      innerLoop_consensus width height jitter ps st st2 cursors label h
  · intro width height jitter maxIter iters img v cs lb oc nc os ns hmem
    have hok := outerLoop_trace_emitOK width height jitter maxIter iters
      (initState width height img) (by intro e he; simp [initState] at he) _ hmem
    obtain ⟨ha, hb, hc, hd, he2, hf⟩ := hok
    exact ⟨ha, hd, he2, hf⟩

/-- Witness for C1: a run in which label 1 is voted twice; the consensus count
is 2 and the identified location is cursors[0]. -/
theorem claim_C1_witness :
    (CONSENSUS_THRESHOLD ≤ List.count 1 ([1, 1] : List ℤ) ∧ (1 : ℤ) ∈ ([1, 1] : List ℤ)) ∧
    pyGet [{ x := 25, y := 25 }, { x := 25, y := 75 }, { x := 75, y := 25 }, { x := 75, y := 75 }]
      (1 - 1) = some { x := 25, y := 25 } := by
  have hrun : innerLoop 100 100 (1/100) [exPass (some 1) 0, exPass (some 1) 1]
      (initState 100 100 0) =
      .consensus
        { center := { x := 50, y := 50 }, spread := 1, centerHistory := [], spreadHistory := [],
          votes := [1, 1], maxOverlap := 1, identified := [], overlaps := [], spreadLog := [],
          iteration := 1, image := 0,
          trace := [.estimate [{ x := 25, y := 25 }, { x := 25, y := 75 },
                      { x := 75, y := 25 }, { x := 75, y := 75 }],
                    .render, .query (some 1), .vote 1 false,
                    .estimate [{ x := 25, y := 25 }, { x := 25, y := 75 },
                      { x := 75, y := 25 }, { x := 75, y := 75 }],
                    .render, .query (some 1), .vote 1 true] }
        [{ x := 25, y := 25 }, { x := 25, y := 75 }, { x := 75, y := 25 }, { x := 75, y := 75 }]
        1 := by
    norm_num [innerLoop, exPass, initState, gc_eval1, mostCommon, CONSENSUS_THRESHOLD,
      List.count_cons, max_def]
  have hA := claim_C1.1 100 100 (1/100) [exPass (some 1) 0, exPass (some 1) 1]
    (initState 100 100 0) _ _ _ hrun
  have hmem : SampleEvent.refine [1, 1]
      [{ x := 25, y := 25 }, { x := 25, y := 75 }, { x := 75, y := 25 }, { x := 75, y := 75 }] 1
      { x := 50, y := 50 } { x := 25, y := 25 } 1 (1/2) ∈
      ((outerLoop 100 100 (1/100) none exIters1 (initState 100 100 0)).state).trace := by
    norm_num [outerLoop, innerLoop, exIters1, exPass, initState, gc_eval1, mostCommon,
      CONSENSUS_THRESHOLD, MAX_OVERLAP_RATIO, SPREAD_REDUCTION_FACTOR, hitIterLimit, pyGet,
      List.get?, List.count_cons, max_def, Outcome.state, InnerOutcome.state]
  have hB := claim_C1.2 100 100 (1/100) none exIters1 0 [1, 1]
    [{ x := 25, y := 25 }, { x := 25, y := 75 }, { x := 75, y := 25 }, { x := 75, y := 75 }] 1
    { x := 50, y := 50 } { x := 25, y := 25 } 1 (1/2) hmem
  exact ⟨⟨hA.2.2.1, hA.2.1⟩, hB.1⟩

/-- C2: the outer search loop of main (sample.py lines 245-319) appends
exactly one identified location per completed iteration (before the overlap
check); it never continues past an iteration whose maximal label-overlap
ratio exceeded MAX_OVERLAP_RATIO = 0.2, so every non-final logged overlap is
within the bound; it stops with the overlap break exactly on a final overlap
beyond the bound; it stops with the iteration-limit break only when
MAX_ITERATIONS is set, nonzero, and exceeded; and when MAX_ITERATIONS = m is
set and nonzero, at most m iterations complete. -/
theorem claim_C2 :
    ∀ (width height : ℤ) (jitter : ℚ) (maxIter : Option ℕ) (iters : List (List Pass)) (img : ℤ),
      (((outerLoop width height jitter maxIter iters (initState width height img)).state).identified.length =
        ((outerLoop width height jitter maxIter iters (initState width height img)).state).overlaps.length) ∧
      (∀ o ∈ ((outerLoop width height jitter maxIter iters (initState width height img)).state).overlaps.dropLast,
        o ≤ MAX_OVERLAP_RATIO) ∧
      ((outerLoop width height jitter maxIter iters (initState width height img)).isOverlapStop = true →
        ∃ o, ((outerLoop width height jitter maxIter iters (initState width height img)).state).overlaps.getLast? =
          some o ∧ MAX_OVERLAP_RATIO < o) ∧
      ((outerLoop width height jitter maxIter iters (initState width height img)).isIterLimit = true →
        ∃ m, maxIter = some m ∧ 0 < m ∧
          m < ((outerLoop width height jitter maxIter iters (initState width height img)).state).iteration) ∧
      (∀ m, maxIter = some m → 0 < m →
        ((outerLoop width height jitter maxIter iters (initState width height img)).state).overlaps.length ≤ m) := by
  intro width height jitter maxIter iters img
  refine outerLoop_c2_aux width height jitter maxIter iters (initState width height img)
    rfl ?_ rfl ?_
  · intro o ho
    simp [initState] at ho
  · intro m hm hm0
    simp [initState]

/-- Witness for C2 on the concrete two-iteration run exRun2 (MAX_ITERATIONS
= 5): the first logged overlap 0 is non-final and within the bound, the run
ends in the overlap break with final overlap beyond the bound, and at most 5
iterations completed. -/
theorem claim_C2_witness :
    ((0 : ℚ) ∈ (exRun2.state).overlaps.dropLast ∧ (0 : ℚ) ≤ MAX_OVERLAP_RATIO) ∧
    (exRun2.isOverlapStop = true ∧
      ∃ o, (exRun2.state).overlaps.getLast? = some o ∧ MAX_OVERLAP_RATIO < o) ∧
    (exRun2.state).overlaps.length ≤ 5 := by
  have h := claim_C2 100 100 (1/100) (some 5) exIters2 0
  have hmem : (0 : ℚ) ∈ (exRun2.state).overlaps.dropLast := by
    norm_num [exRun2, outerLoop, innerLoop, exIters2, exPass, initState, gc_eval1, gc_eval2,
      mostCommon, CONSENSUS_THRESHOLD, MAX_OVERLAP_RATIO, SPREAD_REDUCTION_FACTOR, hitIterLimit,
      pyGet, List.get?, List.count_cons, max_def, Outcome.state, InnerOutcome.state]
  have hstop : exRun2.isOverlapStop = true := by
    norm_num [exRun2, outerLoop, innerLoop, exIters2, exPass, initState, gc_eval1, gc_eval2,
      mostCommon, CONSENSUS_THRESHOLD, MAX_OVERLAP_RATIO, SPREAD_REDUCTION_FACTOR, hitIterLimit,
      pyGet, List.get?, List.count_cons, max_def, Outcome.state, InnerOutcome.state,
      Outcome.isOverlapStop]
  exact ⟨⟨hmem, h.2.1 0 hmem⟩, ⟨hstop, h.2.2.1 hstop⟩, h.2.2.2.2 5 rfl (by norm_num)⟩

/-- The logged spread sequence (1/2)^1, (1/2)^2, ... is strictly
decreasing. -/
theorem spreadLog_chain (n : ℕ) :
    List.Chain' (fun a b : ℚ => b < a) ((List.range n).map fun k => ((1 : ℚ)/2) ^ (k + 1)) := by
  apply List.Pairwise.chain'
  refine List.Pairwise.map _ ?_ (List.pairwise_lt_range n)
  intro a b hab
  exact pow_lt_pow_right_of_lt_one₀ (by norm_num) (by norm_num) (by omega)

/-- C3 (amended): every completed iteration of the search loop replaces the
center by that iteration's identified location and multiplies the spread by
SPREAD_REDUCTION_FACTOR = 0.5; provided no iteration processes more than one
None response (each of which pops the center/spread history stacks), the
spread after n completed iterations equals 0.5^n and the spread sequence is
strictly decreasing.  The original unconditional claim fails: two history
pops in one iteration rewind the spread, see the counterexample. -/
theorem claim_C3 :
    ∀ (width height : ℤ) (jitter : ℚ) (maxIter : Option ℕ) (iters : List (List Pass)) (img : ℤ),
      (∀ it ∈ iters, it.countP (fun p => p.response.isNone) ≤ 1) →
      (((outerLoop width height jitter maxIter iters (initState width height img)).state).spread =
        ((1 : ℚ)/2) ^
          ((outerLoop width height jitter maxIter iters (initState width height img)).state).spreadLog.length) ∧
      (((outerLoop width height jitter maxIter iters (initState width height img)).state).spreadLog =
        (List.range
          ((outerLoop width height jitter maxIter iters (initState width height img)).state).spreadLog.length).map
          (fun n => ((1 : ℚ)/2) ^ (n + 1))) ∧
      (((outerLoop width height jitter maxIter iters (initState width height img)).state).overlaps.length =
        ((outerLoop width height jitter maxIter iters (initState width height img)).state).spreadLog.length) ∧
      List.Chain' (fun a b : ℚ => b < a)
        ((outerLoop width height jitter maxIter iters (initState width height img)).state).spreadLog ∧
      (((outerLoop width height jitter maxIter iters (initState width height img)).state).identified ≠ [] →
        ((outerLoop width height jitter maxIter iters (initState width height img)).state).identified.getLast? =
          some ((outerLoop width height jitter maxIter iters (initState width height img)).state).center) ∧
      (∀ (v : List ℤ) (cs : List Cursor) (lb : ℤ) (oc nc : Cursor) (os ns : ℚ),
        SampleEvent.refine v cs lb oc nc os ns ∈
          ((outerLoop width height jitter maxIter iters (initState width height img)).state).trace →
        ns = os * SPREAD_REDUCTION_FACTOR ∧ pyGet cs (lb - 1) = some nc) := by
  intro width height jitter maxIter iters img hn
  have haux := outerLoop_c3_aux width height jitter maxIter iters (initState width height img)
    hn (by simp [initState]) (by simp [initState]) (by simp [initState]) (Or.inl rfl)
  refine ⟨haux.1, haux.2.1, haux.2.2.1, ?_, ?_, ?_⟩
  · rw [haux.2.1]
    exact spreadLog_chain _
  · intro hne
    rcases haux.2.2.2 with h | h
    · exact absurd h hne
    · exact h
  · intro v cs lb oc nc os ns hmem
    have hok := outerLoop_trace_emitOK width height jitter maxIter iters
      (initState width height img) (by intro e he; simp [initState] at he) _ hmem
    obtain ⟨ha, hb, -, -, -, -⟩ := hok
    exact ⟨hb, ha⟩

/-- Counterexample for C3 as originally stated: on exIters3 the second
iteration receives two None responses, which pop the history stacks twice and
rewind the spread to 1; after its consensus the spread is halved back to 1/2,
so after two completed iterations the spread is 1/2 and not 0.5^2, and the
spread-after-iteration sequence [1/2, 1/2] is not strictly decreasing. -/
theorem claim_C3_counterexample :
    (exRun3.state).spreadLog = [1/2, 1/2] ∧
    (exRun3.state).overlaps.length = 2 ∧
    (exRun3.state).spread = 1/2 ∧
    ((1 : ℚ)/2) ≠ ((1 : ℚ)/2) ^ 2 ∧
    ¬ List.Chain' (fun a b : ℚ => b < a) [((1 : ℚ)/2), 1/2] := by
  refine ⟨?_, ?_, ?_, by norm_num, by simp [List.chain'_pair]⟩
  · norm_num [exRun3, outerLoop, innerLoop, exIters3, exPass, initState, gc_eval1, gc_eval2,
      mostCommon, CONSENSUS_THRESHOLD, MAX_OVERLAP_RATIO, SPREAD_REDUCTION_FACTOR, hitIterLimit,
      pyGet, List.get?, List.count_cons, max_def, Outcome.state, InnerOutcome.state]
  · norm_num [exRun3, outerLoop, innerLoop, exIters3, exPass, initState, gc_eval1, gc_eval2,
      mostCommon, CONSENSUS_THRESHOLD, MAX_OVERLAP_RATIO, SPREAD_REDUCTION_FACTOR, hitIterLimit,
      pyGet, List.get?, List.count_cons, max_def, Outcome.state, InnerOutcome.state]
  · norm_num [exRun3, outerLoop, innerLoop, exIters3, exPass, initState, gc_eval1, gc_eval2,
      mostCommon, CONSENSUS_THRESHOLD, MAX_OVERLAP_RATIO, SPREAD_REDUCTION_FACTOR, hitIterLimit,
      pyGet, List.get?, List.count_cons, max_def, Outcome.state, InnerOutcome.state]

/-- Witness for the amended C3 on the two-iteration run exRun2 (no None
responses): the final spread is (1/2)^2, the center is the last identified
location, and the recorded refinement halves the spread. -/
theorem claim_C3_witness :
    (∀ it ∈ exIters2, it.countP (fun p => p.response.isNone) ≤ 1) ∧
    (exRun2.state).spread = ((1 : ℚ)/2) ^ (exRun2.state).spreadLog.length ∧
    ((exRun2.state).identified ≠ [] ∧
      (exRun2.state).identified.getLast? = some (exRun2.state).center) ∧
    (((1 : ℚ)/2) = 1 * SPREAD_REDUCTION_FACTOR ∧
      pyGet [{ x := 25, y := 25 }, { x := 25, y := 75 }, { x := 75, y := 25 }, { x := 75, y := 75 }]
        (1 - 1) = some { x := 25, y := 25 }) := by
  have hn2 : ∀ it ∈ exIters2, it.countP (fun p => p.response.isNone) ≤ 1 := by
    intro it hit
    simp only [exIters2, List.mem_cons, List.not_mem_nil, or_false] at hit
    rcases hit with h | h <;> rw [h] <;> norm_num [List.countP_cons, exPass]
  have h := claim_C3 100 100 (1/100) (some 5) exIters2 0 hn2
  have hid : (exRun2.state).identified = [{ x := 25, y := 25 }, { x := 12, y := 37 }] := by
    norm_num [exRun2, outerLoop, innerLoop, exIters2, exPass, initState, gc_eval1, gc_eval2,
      mostCommon, CONSENSUS_THRESHOLD, MAX_OVERLAP_RATIO, SPREAD_REDUCTION_FACTOR, hitIterLimit,
      pyGet, List.get?, List.count_cons, max_def, Outcome.state, InnerOutcome.state]
  have hne : (exRun2.state).identified ≠ [] := by
    rw [hid]
    exact List.cons_ne_nil _ _
  have hmem : SampleEvent.refine [1, 1]
      [{ x := 25, y := 25 }, { x := 25, y := 75 }, { x := 75, y := 25 }, { x := 75, y := 75 }] 1
      { x := 50, y := 50 } { x := 25, y := 25 } 1 (1/2) ∈ (exRun2.state).trace := by
    norm_num [exRun2, outerLoop, innerLoop, exIters2, exPass, initState, gc_eval1, gc_eval2,
      mostCommon, CONSENSUS_THRESHOLD, MAX_OVERLAP_RATIO, SPREAD_REDUCTION_FACTOR, hitIterLimit,
      pyGet, List.get?, List.count_cons, max_def, Outcome.state, InnerOutcome.state]
  exact ⟨hn2, h.1, ⟨hne, h.2.2.2.2.1 hne⟩, h.2.2.2.2.2 [1, 1] _ 1 _ _ 1 (1/2) hmem⟩

/-- C4 (amended): each iteration of the search loop performs its steps in the
order estimate-render-query, then either casts the parsed vote and checks the
consensus (the vote follows the query that returned its label, and the
refinement of center and spread follows only a consensus-reaching vote), or,
when the response's closest field is None, restores center and spread from
the history stacks (the restore follows exactly a query answered None); the
base image itself is never mutated across iterations.  The original claim's
assertion that center and spread change only after consensus fails on the
history-restore branch, see the counterexample. -/
theorem claim_C4 :
    ∀ (width height : ℤ) (jitter : ℚ) (maxIter : Option ℕ) (iters : List (List Pass)) (img : ℤ),
      List.Chain' adjOK
        ((outerLoop width height jitter maxIter iters (initState width height img)).state).trace ∧
      ((outerLoop width height jitter maxIter iters (initState width height img)).state).image = img := by
  intro width height jitter maxIter iters img
  constructor
  · exact outerLoop_chain width height jitter maxIter iters (initState width height img)
      (by simp [initState])
  · exact outerLoop_image width height jitter maxIter iters (initState width height img)

/-- Counterexample for C4 as originally stated: in the run exRun3 the trace
holds a restore event that changes the spread from 1/2 to 1 before any
consensus of that iteration, so center and spread are not updated only after
consensus. -/
theorem claim_C4_counterexample :
    SampleEvent.restore { x := 25, y := 25 } { x := 50, y := 50 } ((1 : ℚ)/2) 1 ∈
      (exRun3.state).trace ∧
    ((1 : ℚ)/2) ≠ 1 ∧
    ((exRun3.state).trace).any isSpreadChangingRestore = true := by
  refine ⟨?_, by norm_num, ?_⟩
  · norm_num [exRun3, outerLoop, innerLoop, exIters3, exPass, initState, gc_eval1, gc_eval2,
      mostCommon, CONSENSUS_THRESHOLD, MAX_OVERLAP_RATIO, SPREAD_REDUCTION_FACTOR, hitIterLimit,
      pyGet, List.get?, List.count_cons, max_def, Outcome.state, InnerOutcome.state]
  · norm_num [exRun3, outerLoop, innerLoop, exIters3, exPass, initState, gc_eval1, gc_eval2,
      mostCommon, CONSENSUS_THRESHOLD, MAX_OVERLAP_RATIO, SPREAD_REDUCTION_FACTOR, hitIterLimit,
      pyGet, List.get?, List.count_cons, max_def, Outcome.state, InnerOutcome.state,
      isSpreadChangingRestore, List.any_cons]
